import Mathlib

/-!
# Verification of the notion-md-sync core against its specification

Shallow embedding of the Python sources of `notion-md-sync`
(`block_converter.py`, `sync_engine.py`, `markdown_parser.py`, `cli.py`)
into Lean, together with proofs and refutations of the specification's
claims about them.

Python strings are modelled as `List Char` (the embedding covers the
ASCII fragment of Python's Unicode-aware classifiers `str.isalnum`,
`str.isdigit`, `\d`, `\s`).  Python dictionaries holding JSON-like data
(Notion block and page objects, frontmatter headers) are modelled by the
inductive type `JVal`.  Fallible operations (filesystem, network,
`datetime` parsing) are modelled with `Except`/`Option`, a raised Python
exception corresponding to the error case.
-/

/-- Python strings are modelled as lists of characters. -/
abbrev Str := List Char

/-- Converts a Lean string literal to the `List Char` model. -/
def ofStr (s : String) : Str := s.data

/-- The whitespace class of Python's `str.strip()` and of the regex class
`\s` (ASCII fragment: space, tab, newline, carriage return, vertical tab,
form feed). -/
def pyIsSpace (c : Char) : Bool :=
  c == ' ' || c == '\t' || c == '\n' || c == '\r' || c == '\x0b' || c == '\x0c'

/-- Removes the trailing run of characters satisfying `p`. -/
def dropTrailing (p : Char → Bool) (l : Str) : Str :=
  (l.reverse.dropWhile p).reverse

/-- Python's `str.strip()`: remove leading and trailing whitespace. -/
def pyStrip (l : Str) : Str :=
  dropTrailing pyIsSpace (l.dropWhile pyIsSpace)

/-- Python's `str.split('\n')`: always at least one piece, one extra piece
per newline character. -/
def splitLines : Str → List Str
  | [] => [[]]
  | c :: cs =>
    if c = '\n' then [] :: splitLines cs
    else
      match splitLines cs with
      | [] => [[c]]
      | l :: ls => (c :: l) :: ls

/-- Python's `'\n'.join(...)`. -/
def joinLines : List Str → Str
  | [] => []
  | [l] => l
  | l :: ls => l ++ '\n' :: joinLines ls

theorem splitLines_ne_nil (s : Str) : splitLines s ≠ [] := by
  cases s with
  | nil => simp [splitLines]
  | cons c cs =>
    simp only [splitLines]
    split
    · simp
    · split <;> simp

theorem joinLines_cons (l : Str) (ls : List Str) (h : ls ≠ []) :
    joinLines (l :: ls) = l ++ '\n' :: joinLines ls := by
  cases ls with
  | nil => exact absurd rfl h
  | cons x xs => rfl

theorem splitLines_append_newline (a b : Str) :
    splitLines (a ++ '\n' :: b) = splitLines a ++ splitLines b := by
  induction a with
  | nil => simp [splitLines]
  | cons c cs ih =>
    by_cases hc : c = '\n'
    · subst hc
      simp [splitLines, ih]
    · have hstep : ∀ t, splitLines (c :: t)
          = match splitLines t with
            | [] => [[c]]
            | l :: ls => (c :: l) :: ls := by
        intro t
        simp [splitLines, hc]
      rw [List.cons_append, hstep, hstep, ih]
      cases hsp : splitLines cs with
      | nil => exact absurd hsp (splitLines_ne_nil cs)
      | cons l ls => simp

theorem joinLines_splitLines (s : Str) : joinLines (splitLines s) = s := by
  induction s with
  | nil => simp [splitLines, joinLines]
  | cons c cs ih =>
    by_cases hc : c = '\n'
    · subst hc
      have h1 : splitLines ('\n' :: cs) = [] :: splitLines cs := by
        simp [splitLines]
      rw [h1, joinLines_cons _ _ (splitLines_ne_nil cs), ih]
      simp
    · simp only [splitLines, if_neg hc]
      have hne := splitLines_ne_nil cs
      cases hsp : splitLines cs with
      | nil => exact absurd hsp hne
      | cons l ls =>
        cases ls with
        | nil =>
          simp only [joinLines]
          have : joinLines (splitLines cs) = cs := ih
          rw [hsp] at this
          simp only [joinLines] at this
          rw [this]
        | cons y ys =>
          rw [joinLines_cons _ _ (by simp)]
          have : joinLines (splitLines cs) = cs := ih
          rw [hsp, joinLines_cons _ _ (by simp)] at this
          simp only [List.cons_append]
          rw [this]

theorem noNL_of_mem_splitLines (s : Str) (l : Str) (h : l ∈ splitLines s) :
    '\n' ∉ l := by
  induction s generalizing l with
  | nil =>
    simp only [splitLines, List.mem_singleton] at h
    subst h
    simp
  | cons c cs ih =>
    by_cases hc : c = '\n'
    · subst hc
      have h1 : splitLines ('\n' :: cs) = [] :: splitLines cs := by
        simp [splitLines]
      rw [h1] at h
      rcases List.mem_cons.mp h with h | h
      · subst h
        simp
      · exact ih l h
    · simp only [splitLines, if_neg hc] at h
      have hne := splitLines_ne_nil cs
      cases hsp : splitLines cs with
      | nil => exact absurd hsp hne
      | cons x xs =>
        rw [hsp] at h
        simp only [List.mem_cons] at h
        rcases h with h | h
        · subst h
          intro hm
          rcases List.mem_cons.mp hm with h1 | h1
          · exact hc h1.symm
          · exact ih x (by rw [hsp]; exact List.mem_cons_self x xs) h1
        · exact ih l (by rw [hsp]; exact List.mem_cons_of_mem x h)

theorem splitLines_eq_single (s : Str) (h : '\n' ∉ s) : splitLines s = [s] := by
  induction s with
  | nil => simp [splitLines]
  | cons c cs ih =>
    have hc : c ≠ '\n' := fun hh => h (hh ▸ List.mem_cons_self c cs)
    have hcs : '\n' ∉ cs := fun hh => h (List.mem_cons_of_mem c hh)
    simp only [splitLines, if_neg hc, ih hcs]

theorem splitLines_joinLines (ls : List Str) (h : ls ≠ []) :
    splitLines (joinLines ls) = ls.flatMap splitLines := by
  induction ls with
  | nil => exact absurd rfl h
  | cons l rest ih =>
    cases rest with
    | nil => simp [joinLines, List.flatMap_cons]
    | cons y ys =>
      rw [joinLines_cons _ _ (by simp), splitLines_append_newline,
        ih (by simp)]
      simp [List.flatMap_cons]

theorem dropWhile_eq_self_of_head {p : Char → Bool} {l : Str}
    (h : ∀ c, l.head? = some c → p c = false) : l.dropWhile p = l := by
  cases l with
  | nil => rfl
  | cons c cs =>
    have := h c rfl
    simp [List.dropWhile_cons, this]

theorem head?_dropWhile_false {p : Char → Bool} {l : Str} {c : Char}
    (h : (l.dropWhile p).head? = some c) : p c = false := by
  induction l with
  | nil => simp [List.dropWhile] at h
  | cons x xs ih =>
    rw [List.dropWhile_cons] at h
    by_cases hx : p x
    · rw [if_pos hx] at h
      exact ih h
    · rw [if_neg hx] at h
      simp at h
      rw [← h]
      exact Bool.of_not_eq_true hx

theorem mem_dropWhile_of_mem {p : Char → Bool} {l : Str} {x : Char}
    (hm : x ∈ l) (hx : p x = false) : x ∈ l.dropWhile p := by
  induction l with
  | nil => simp at hm
  | cons c cs ih =>
    rw [List.dropWhile_cons]
    by_cases hc : p c
    · rw [if_pos hc]
      rcases List.mem_cons.mp hm with h | h
      · subst h
        rw [hc] at hx
        simp at hx
      · exact ih h
    · rw [if_neg hc]
      exact hm

theorem dropWhile_sublist' (p : Char → Bool) (l : Str) :
    List.Sublist (l.dropWhile p) l := by
  induction l with
  | nil => simp
  | cons c cs ih =>
    rw [List.dropWhile_cons]
    by_cases hc : p c
    · rw [if_pos hc]
      exact List.Sublist.cons c ih
    · rw [if_neg hc]

theorem dropTrailing_sublist (p : Char → Bool) (l : Str) :
    List.Sublist (dropTrailing p l) l := by
  have h1 := dropWhile_sublist' p l.reverse
  have h2 := h1.reverse
  simpa [dropTrailing] using h2

theorem pyStrip_sublist (l : Str) : List.Sublist (pyStrip l) l :=
  (dropTrailing_sublist pyIsSpace _).trans (dropWhile_sublist' pyIsSpace l)

theorem pyStrip_subset (l : Str) : pyStrip l ⊆ l :=
  (pyStrip_sublist l).subset

theorem dropTrailing_eq_self_of_getLast {p : Char → Bool} {l : Str}
    (h : ∀ c, l.getLast? = some c → p c = false) : dropTrailing p l = l := by
  unfold dropTrailing
  rw [dropWhile_eq_self_of_head, List.reverse_reverse]
  intro c hc
  exact h c (by rwa [List.head?_reverse] at hc)

theorem getLast?_dropTrailing_false {p : Char → Bool} {l : Str} {c : Char}
    (h : (dropTrailing p l).getLast? = some c) : p c = false := by
  unfold dropTrailing at h
  rw [List.getLast?_reverse] at h
  exact head?_dropWhile_false h

theorem pyStrip_eq_self_of_ends {l : Str}
    (h1 : ∀ c, l.head? = some c → pyIsSpace c = false)
    (h2 : ∀ c, l.getLast? = some c → pyIsSpace c = false) :
    pyStrip l = l := by
  unfold pyStrip
  rw [dropWhile_eq_self_of_head h1, dropTrailing_eq_self_of_getLast h2]

theorem mem_dropTrailing_of_mem {p : Char → Bool} {l : Str} {x : Char}
    (hm : x ∈ l) (hx : p x = false) : x ∈ dropTrailing p l := by
  unfold dropTrailing
  rw [List.mem_reverse]
  exact mem_dropWhile_of_mem (List.mem_reverse.mpr hm) hx

theorem mem_pyStrip_of_mem {l : Str} {x : Char}
    (hm : x ∈ l) (hx : pyIsSpace x = false) : x ∈ pyStrip l :=
  mem_dropTrailing_of_mem (mem_dropWhile_of_mem hm hx) hx

theorem pyStrip_ne_nil_of_mem {l : Str} {x : Char}
    (hm : x ∈ l) (hx : pyIsSpace x = false) : pyStrip l ≠ [] := by
  intro h
  have := mem_pyStrip_of_mem hm hx
  rw [h] at this
  exact absurd this (List.not_mem_nil x)

theorem getLast?_pyStrip_false {l : Str} {c : Char}
    (h : (pyStrip l).getLast? = some c) : pyIsSpace c = false :=
  getLast?_dropTrailing_false h

theorem getLast?_dropWhile_of_ne_nil {p : Char → Bool} {l : Str}
    (h : l.dropWhile p ≠ []) : (l.dropWhile p).getLast? = l.getLast? := by
  conv_rhs => rw [← List.takeWhile_append_dropWhile (p := p) (l := l)]
  rw [List.getLast?_append_of_ne_nil _ h]

theorem head?_dropTrailing_of_ne_nil {p : Char → Bool} {l : Str}
    (h : dropTrailing p l ≠ []) : (dropTrailing p l).head? = l.head? := by
  unfold dropTrailing at h ⊢
  have hnn : l.reverse.dropWhile p ≠ [] := by
    intro hh
    rw [hh] at h
    exact h rfl
  rw [← List.getLast?_reverse, List.reverse_reverse,
    getLast?_dropWhile_of_ne_nil hnn, List.getLast?_reverse]

theorem head?_pyStrip_false {l : Str} {c : Char}
    (h : (pyStrip l).head? = some c) : pyIsSpace c = false := by
  unfold pyStrip at h
  have hne : dropTrailing pyIsSpace (l.dropWhile pyIsSpace) ≠ [] := by
    intro hh
    rw [hh] at h
    simp at h
  rw [head?_dropTrailing_of_ne_nil hne] at h
  exact head?_dropWhile_false h

theorem pyStrip_idem (l : Str) : pyStrip (pyStrip l) = pyStrip l :=
  pyStrip_eq_self_of_ends (fun _ h => head?_pyStrip_false h)
    (fun _ h => getLast?_pyStrip_false h)

theorem pyStrip_head_false {l : Str} {c : Char} {t : Str}
    (hs : pyStrip l = l) (hl : l = c :: t) : pyIsSpace c = false := by
  apply head?_pyStrip_false (l := l)
  rw [hs, hl]
  rfl

theorem takeWhile_append_all {α : Type} {p : α → Bool} {a : List α} (b : List α)
    (h : ∀ x ∈ a, p x = true) : (a ++ b).takeWhile p = a ++ b.takeWhile p := by
  induction a with
  | nil => simp
  | cons c cs ih =>
    have hc := h c (List.mem_cons_self c cs)
    simp only [List.cons_append, List.takeWhile_cons, hc, if_true]
    rw [ih (fun x hx => h x (List.mem_cons_of_mem c hx))]

theorem dropWhile_append_all {α : Type} {p : α → Bool} {a : List α} (b : List α)
    (h : ∀ x ∈ a, p x = true) : (a ++ b).dropWhile p = b.dropWhile p := by
  induction a with
  | nil => simp
  | cons c cs ih =>
    have hc := h c (List.mem_cons_self c cs)
    simp only [List.cons_append, List.dropWhile_cons, hc, if_true]
    exact ih (fun x hx => h x (List.mem_cons_of_mem c hx))

theorem mem_takeWhile_true {α : Type} {p : α → Bool} {l : List α} {x : α}
    (h : x ∈ l.takeWhile p) : p x = true := by
  induction l with
  | nil => simp [List.takeWhile] at h
  | cons c cs ih =>
    rw [List.takeWhile_cons] at h
    by_cases hc : p c
    · rw [if_pos hc] at h
      rcases List.mem_cons.mp h with h1 | h1
      · rwa [h1]
      · exact ih h1
    · rw [if_neg hc] at h
      simp at h

/-- A decimal digit character, as produced by Python's `str()` on a
nonnegative integer. -/
def decDigit (n : Nat) : Char :=
  match n with
  | 0 => '0' | 1 => '1' | 2 => '2' | 3 => '3' | 4 => '4'
  | 5 => '5' | 6 => '6' | 7 => '7' | 8 => '8' | _ => '9'

/-- Fuel-indexed decimal printer (the fuel makes it structurally
recursive; `natToDigits` supplies enough fuel). -/
def natDigitsAux : Nat → Nat → Str
  | 0, _ => []
  | fuel + 1, n =>
    if n < 10 then [decDigit n]
    else natDigitsAux fuel (n / 10) ++ [decDigit (n % 10)]

/-- Python's `str(n)` for a natural number `n` (decimal, no sign). -/
def natToDigits (n : Nat) : Str := natDigitsAux (n + 1) n

/-- Reads a decimal digit string back to the number it denotes. -/
def readBackDigits (ds : Str) : Nat :=
  ds.foldl (fun a c => 10 * a + (c.toNat - 48)) 0

theorem readBackDigits_append (a : Str) (c : Char) :
    readBackDigits (a ++ [c]) = 10 * readBackDigits a + (c.toNat - 48) := by
  simp [readBackDigits, List.foldl_append]

theorem decDigit_toNat {n : Nat} (h : n < 10) : (decDigit n).toNat - 48 = n := by
  interval_cases n <;> decide

theorem readBackDigits_natDigitsAux :
    ∀ fuel n, n < fuel → readBackDigits (natDigitsAux fuel n) = n := by
  intro fuel
  induction fuel with
  | zero => intro n h; omega
  | succ f ih =>
    intro n h
    by_cases h10 : n < 10
    · simp only [natDigitsAux, if_pos h10]
      show readBackDigits ([] ++ [decDigit n]) = n
      rw [readBackDigits_append]
      simp [readBackDigits, decDigit_toNat h10]
    · simp only [natDigitsAux, if_neg h10]
      rw [readBackDigits_append, ih (n / 10) (by omega),
        decDigit_toNat (Nat.mod_lt n (by omega))]
      omega

theorem readBackDigits_natToDigits (n : Nat) :
    readBackDigits (natToDigits n) = n :=
  readBackDigits_natDigitsAux (n + 1) n (by omega)

theorem natToDigits_injective {m n : Nat} (h : natToDigits m = natToDigits n) :
    m = n := by
  have := readBackDigits_natToDigits m
  rw [h, readBackDigits_natToDigits] at this
  exact this.symm

/-- JSON-like values: the model of the Python dictionaries/lists/strings
making up Notion block and page objects and frontmatter headers. -/
inductive JVal : Type where
  | str (s : Str)
  | arr (elems : List JVal)
  | obj (fields : List (Str × JVal))

/-- Dictionary key lookup (Python `d[k]` / `d.get(k)` on the field list of
an object; `none` models an absent key). -/
def jlookup : List (Str × JVal) → Str → Option JVal
  | [], _ => none
  | (k', v) :: rest, k => if k' = k then some v else jlookup rest k

/-- The `rich_text` array `[{"type": "text", "text": {"content": text}}]`
shared by all block constructors of `block_converter.py`. -/
def rich_text_arr (text : Str) : JVal :=
  .arr [.obj [(ofStr "type", .str (ofStr "text")),
              (ofStr "text", .obj [(ofStr "content", .str text)])]]

/-- `BlockConverter._create_heading_block`: clamps the level to at most 3
("Notion only supports h1-h3") and builds `heading_<level>`. -/
def create_heading_block (text : Str) (level : Nat) : JVal :=
  let lvl := if level > 3 then 3 else level
  let block_type := ofStr "heading_" ++ natToDigits lvl
  .obj [(ofStr "type", .str block_type),
        (block_type, .obj [(ofStr "rich_text", rich_text_arr text)])]

/-- `BlockConverter._create_paragraph_block`. -/
def create_paragraph_block (text : Str) : JVal :=
  .obj [(ofStr "type", .str (ofStr "paragraph")),
        (ofStr "paragraph", .obj [(ofStr "rich_text", rich_text_arr text)])]

/-- `BlockConverter._create_code_block`. -/
def create_code_block (code : Str) (language : Str) : JVal :=
  .obj [(ofStr "type", .str (ofStr "code")),
        (ofStr "code", .obj [(ofStr "rich_text", rich_text_arr code),
                             (ofStr "language", .str language)])]

/-- `BlockConverter._create_quote_block`. -/
def create_quote_block (text : Str) : JVal :=
  .obj [(ofStr "type", .str (ofStr "quote")),
        (ofStr "quote", .obj [(ofStr "rich_text", rich_text_arr text)])]

/-- `BlockConverter._create_bullet_list_item`. -/
def create_bullet_list_item (text : Str) : JVal :=
  .obj [(ofStr "type", .str (ofStr "bulleted_list_item")),
        (ofStr "bulleted_list_item",
          .obj [(ofStr "rich_text", rich_text_arr text)])]

/-- `BlockConverter._create_numbered_list_item`. -/
def create_numbered_list_item (text : Str) : JVal :=
  .obj [(ofStr "type", .str (ofStr "numbered_list_item")),
        (ofStr "numbered_list_item",
          .obj [(ofStr "rich_text", rich_text_arr text)])]

/-- Embedding of `re.match(r'^(#{1,3})\s+(.+)$', line)`: a greedy run of
one to three `#`, at least one whitespace character, then a nonempty
remainder.  When the remainder after the whitespace run is empty, regex
backtracking lets `(.+)` capture the final whitespace character (provided
the run has length at least two and that character is not a newline,
which `.` cannot match); in the converter this branch is unreachable
because the line has already been stripped. -/
def heading_match (line : Str) : Option (Nat × Str) :=
  let hashes := line.takeWhile (· == '#')
  let n := hashes.length
  if n = 0 then none
  else if 3 < n then none
  else
    let rest := line.drop n
    let ws := rest.takeWhile pyIsSpace
    let text := rest.dropWhile pyIsSpace
    if ws.isEmpty then none
    else if !text.isEmpty then some (n, text)
    else if 2 ≤ ws.length then
      match ws.getLast? with
      | some c => if c == '\n' then none else some (n, [c])
      | none => none
    else none

/-- Embedding of `re.match(r'^\d+\.\s+(.+)$', line)` (ASCII digits), with
the same backtracking note as `heading_match`. -/
def numbered_match (line : Str) : Option Str :=
  let ds := line.takeWhile Char.isDigit
  if ds.isEmpty then none
  else
    match line.drop ds.length with
    | c0 :: rest =>
      if c0 = '.' then
        let ws := rest.takeWhile pyIsSpace
        let text := rest.dropWhile pyIsSpace
        if ws.isEmpty then none
        else if !text.isEmpty then some text
        else if 2 ≤ ws.length then
          match ws.getLast? with
          | some c => if c == '\n' then none else some [c]
          | none => none
        else none
      else none
    | [] => none

/-- The guard of the fence-consuming inner `while` loop:
`lines[i].strip().startswith('```')`. -/
def fence_test (l : Str) : Bool := (ofStr "```").isPrefixOf (pyStrip l)

/-- The `while i < len(lines)` loop of `BlockConverter.markdown_to_blocks`,
acting on the list of lines produced by `split('\n')`.  Branch order is
that of the source: blank line, heading, code fence (with its inner
line-consuming loop rendered by `takeWhile`/`dropWhile`), bullet list,
numbered list, quote, paragraph. -/
def markdown_to_blocks_loop : List Str → List JVal
  | [] => []
  | l :: rest =>
    let line := pyStrip l
    if line.isEmpty then markdown_to_blocks_loop rest
    else
      match heading_match line with
      | some (level, text) =>
        create_heading_block text level :: markdown_to_blocks_loop rest
      | none =>
        if (ofStr "```").isPrefixOf line then
          let language := pyStrip (line.drop 3)
          let code_lines := rest.takeWhile (fun s => !fence_test s)
          let restAfter := (rest.dropWhile (fun s => !fence_test s)).drop 1
          create_code_block (joinLines code_lines) language ::
            markdown_to_blocks_loop restAfter
        else if (ofStr "- ").isPrefixOf line || (ofStr "* ").isPrefixOf line then
          create_bullet_list_item (pyStrip (line.drop 2)) ::
            markdown_to_blocks_loop rest
        else
          match numbered_match line with
          | some text =>
            create_numbered_list_item text :: markdown_to_blocks_loop rest
          | none =>
            if (ofStr "> ").isPrefixOf line then
              create_quote_block (pyStrip (line.drop 2)) ::
                markdown_to_blocks_loop rest
            else
              create_paragraph_block line :: markdown_to_blocks_loop rest
  termination_by ls => ls.length
  decreasing_by
  all_goals simp only [List.length_cons, List.length_drop]
  all_goals
    (try have h1 : (List.dropWhile (fun s => !fence_test s) ls).length ≤ ls.length :=
      (List.dropWhile_sublist _).length_le)
  all_goals omega

/-- `BlockConverter.markdown_to_blocks`. -/
def markdown_to_blocks (markdown_content : Str) : List JVal :=
  markdown_to_blocks_loop (splitLines markdown_content)

/-- One item of `BlockConverter._get_text_from_rich_text`'s generator:
`item.get('text', {}).get('content', '')`.  `none` models the exception
raised when `item` (or the value under `'text'`) is not a dictionary, or
when `''.join` later rejects a non-string content. -/
def rich_text_item_text (item : JVal) : Option Str :=
  match item with
  | .obj f =>
    match jlookup f (ofStr "text") with
    | some (.obj tf) =>
      match jlookup tf (ofStr "content") with
      | some (.str c) => some c
      | some _ => none
      | none => some []
    | some _ => none
    | none => some []
  | _ => none

/-- The `''.join(... for item in rich_text)` of
`BlockConverter._get_text_from_rich_text`: concatenates the per-item
texts, failing if any item raises. -/
def rich_texts_join : List JVal → Option Str
  | [] => some []
  | item :: rest => do
    let s ← rich_text_item_text item
    let r ← rich_texts_join rest
    pure (s ++ r)

/-- `BlockConverter._get_text_from_rich_text`, applied to the value found
under `'rich_text'`.  A non-list value models Python iterating over a
non-list (any non-empty such iteration raises inside the generator). -/
def get_text_from_rich_text (rt : JVal) : Option Str :=
  match rt with
  | .arr items => rich_texts_join items
  | _ => none

/-- `payload.get('rich_text', [])`. -/
def get_rich_text_field (payload : List (Str × JVal)) : JVal :=
  match jlookup payload (ofStr "rich_text") with
  | some v => v
  | none => .arr []

/-- The lines `blocks_to_markdown` appends for one block (the trailing
blank separator line is added by the caller).  `none` models an uncaught
exception (`block[block_type]` on a missing key, a non-dictionary where a
dictionary is required, and so on); unknown block types contribute no
lines. -/
def block_to_markdown_lines (block : JVal) : Option (List Str) :=
  match block with
  | .obj fields =>
    match jlookup fields (ofStr "type") with
    | some (.str block_type) =>
      if block_type = ofStr "heading_1" ∨ block_type = ofStr "heading_2" ∨
          block_type = ofStr "heading_3" then
        -- level = int(block_type[-1])
        let level : Nat :=
          if block_type = ofStr "heading_1" then 1
          else if block_type = ofStr "heading_2" then 2 else 3
        match jlookup fields block_type with
        | some (.obj payload) =>
          match get_text_from_rich_text (get_rich_text_field payload) with
          | some text => some [List.replicate level '#' ++ ' ' :: text]
          | none => none
        | _ => none
      else if block_type = ofStr "paragraph" then
        match jlookup fields (ofStr "paragraph") with
        | some (.obj payload) =>
          match get_text_from_rich_text (get_rich_text_field payload) with
          | some text => some [text]
          | none => none
        | _ => none
      else if block_type = ofStr "code" then
        match jlookup fields (ofStr "code") with
        | some (.obj payload) =>
          match get_text_from_rich_text (get_rich_text_field payload) with
          | some text =>
            -- language = block['code'].get('language', '')
            match jlookup payload (ofStr "language") with
            | some (.str language) =>
              some [ofStr "```" ++ language, text, ofStr "```"]
            | some _ => none
            | none => some [ofStr "```", text, ofStr "```"]
          | none => none
        | _ => none
      else if block_type = ofStr "quote" then
        match jlookup fields (ofStr "quote") with
        | some (.obj payload) =>
          match get_text_from_rich_text (get_rich_text_field payload) with
          | some text => some [ofStr "> " ++ text]
          | none => none
        | _ => none
      else if block_type = ofStr "bulleted_list_item" then
        match jlookup fields (ofStr "bulleted_list_item") with
        | some (.obj payload) =>
          match get_text_from_rich_text (get_rich_text_field payload) with
          | some text => some [ofStr "- " ++ text]
          | none => none
        | _ => none
      else if block_type = ofStr "numbered_list_item" then
        match jlookup fields (ofStr "numbered_list_item") with
        | some (.obj payload) =>
          match get_text_from_rich_text (get_rich_text_field payload) with
          | some text => some [ofStr "1. " ++ text]
          | none => none
        | _ => none
      else some []
    | some _ => some []
    | none => some []
  | _ => none

/-- The `markdown_lines` accumulated by `BlockConverter.blocks_to_markdown`
(each block's lines followed by one blank separator line). -/
def blocks_to_markdown_lines : List JVal → Option (List Str)
  | [] => some []
  | b :: bs => do
    let ls ← block_to_markdown_lines b
    let rest ← blocks_to_markdown_lines bs
    pure (ls ++ [[]] ++ rest)

/-- `BlockConverter.blocks_to_markdown`: `'\n'.join(markdown_lines)`. -/
def blocks_to_markdown (blocks : List JVal) : Option Str :=
  (blocks_to_markdown_lines blocks).map joinLines

theorem loop_nil : markdown_to_blocks_loop [] = [] := by
  simp [markdown_to_blocks_loop]

theorem loop_blank (l : Str) (rest : List Str) (h : pyStrip l = []) :
    markdown_to_blocks_loop (l :: rest) = markdown_to_blocks_loop rest := by
  rw [markdown_to_blocks_loop]
  simp [h]

theorem loop_heading (l : Str) (rest : List Str) (n : Nat) (t : Str)
    (h : heading_match (pyStrip l) = some (n, t)) (hne : pyStrip l ≠ []) :
    markdown_to_blocks_loop (l :: rest)
      = create_heading_block t n :: markdown_to_blocks_loop rest := by
  rw [markdown_to_blocks_loop]
  simp [h, hne]

theorem loop_fence (l : Str) (rest : List Str)
    (hne : pyStrip l ≠ [])
    (hh : heading_match (pyStrip l) = none)
    (hf : (ofStr "```").isPrefixOf (pyStrip l) = true) :
    markdown_to_blocks_loop (l :: rest)
      = create_code_block (joinLines (rest.takeWhile (fun s => !fence_test s)))
          (pyStrip ((pyStrip l).drop 3)) ::
        markdown_to_blocks_loop ((rest.dropWhile (fun s => !fence_test s)).drop 1) := by
  rw [markdown_to_blocks_loop]
  simp [hne, hh, hf]

theorem loop_bullet (l : Str) (rest : List Str)
    (hne : pyStrip l ≠ [])
    (hh : heading_match (pyStrip l) = none)
    (hf : (ofStr "```").isPrefixOf (pyStrip l) = false)
    (hb : ((ofStr "- ").isPrefixOf (pyStrip l)
        || (ofStr "* ").isPrefixOf (pyStrip l)) = true) :
    markdown_to_blocks_loop (l :: rest)
      = create_bullet_list_item (pyStrip ((pyStrip l).drop 2)) ::
        markdown_to_blocks_loop rest := by
  rw [markdown_to_blocks_loop]
  rcases Bool.or_eq_true_iff.mp hb with hb1 | hb1 <;> simp [hne, hh, hf, hb1]

theorem loop_numbered (l : Str) (rest : List Str) (t : Str)
    (hne : pyStrip l ≠ [])
    (hh : heading_match (pyStrip l) = none)
    (hf : (ofStr "```").isPrefixOf (pyStrip l) = false)
    (hb1 : (ofStr "- ").isPrefixOf (pyStrip l) = false)
    (hb2 : (ofStr "* ").isPrefixOf (pyStrip l) = false)
    (hn : numbered_match (pyStrip l) = some t) :
    markdown_to_blocks_loop (l :: rest)
      = create_numbered_list_item t :: markdown_to_blocks_loop rest := by
  rw [markdown_to_blocks_loop]
  simp [hne, hh, hf, hb1, hb2, hn]

theorem loop_quote (l : Str) (rest : List Str)
    (hne : pyStrip l ≠ [])
    (hh : heading_match (pyStrip l) = none)
    (hf : (ofStr "```").isPrefixOf (pyStrip l) = false)
    (hb1 : (ofStr "- ").isPrefixOf (pyStrip l) = false)
    (hb2 : (ofStr "* ").isPrefixOf (pyStrip l) = false)
    (hn : numbered_match (pyStrip l) = none)
    (hq : (ofStr "> ").isPrefixOf (pyStrip l) = true) :
    markdown_to_blocks_loop (l :: rest)
      = create_quote_block (pyStrip ((pyStrip l).drop 2)) ::
        markdown_to_blocks_loop rest := by
  rw [markdown_to_blocks_loop]
  simp [hne, hh, hf, hb1, hb2, hn, hq]

theorem loop_paragraph (l : Str) (rest : List Str)
    (hne : pyStrip l ≠ [])
    (hh : heading_match (pyStrip l) = none)
    (hf : (ofStr "```").isPrefixOf (pyStrip l) = false)
    (hb1 : (ofStr "- ").isPrefixOf (pyStrip l) = false)
    (hb2 : (ofStr "* ").isPrefixOf (pyStrip l) = false)
    (hn : numbered_match (pyStrip l) = none)
    (hq : (ofStr "> ").isPrefixOf (pyStrip l) = false) :
    markdown_to_blocks_loop (l :: rest)
      = create_paragraph_block (pyStrip l) :: markdown_to_blocks_loop rest := by
  rw [markdown_to_blocks_loop]
  simp [hne, hh, hf, hb1, hb2, hn, hq]

theorem dropWhile_eq_drop_len_takeWhile (p : Char → Bool) (l : Str) :
    l.dropWhile p = l.drop (l.takeWhile p).length := by
  induction l with
  | nil => rfl
  | cons c cs ih =>
    rw [List.dropWhile_cons, List.takeWhile_cons]
    by_cases hc : p c
    · rw [if_pos hc, if_pos hc, List.length_cons, List.drop_succ_cons, ih]
    · rw [if_neg hc, if_neg hc]
      rfl

theorem takeWhile_append_dropWhile' (p : Char → Bool) (l : Str) :
    l.takeWhile p ++ l.dropWhile p = l :=
  List.takeWhile_append_dropWhile p l

theorem getLast?_of_isSuffix {t l : Str} (h : List.IsSuffix t l) (hne : t ≠ []) :
    l.getLast? = t.getLast? := by
  obtain ⟨u, rfl⟩ := h
  exact List.getLast?_append_of_ne_nil u hne

theorem pyStrip_self_getLast {l : Str} (hs : pyStrip l = l) :
    ∀ c, l.getLast? = some c → pyIsSpace c = false := by
  intro c hc
  apply getLast?_pyStrip_false (l := l)
  rw [hs]
  exact hc

theorem pyStrip_self_head {l : Str} (hs : pyStrip l = l) :
    ∀ c, l.head? = some c → pyIsSpace c = false := by
  intro c hc
  apply head?_pyStrip_false (l := l)
  rw [hs]
  exact hc

theorem pyStrip_eq_self_of_suffix {t l : Str} (h : List.IsSuffix t l)
    (hs : pyStrip l = l)
    (hhd : ∀ c, t.head? = some c → pyIsSpace c = false) :
    pyStrip t = t := by
  rcases eq_or_ne t [] with rfl | hne
  · rfl
  · refine pyStrip_eq_self_of_ends hhd ?_
    intro c hc
    exact pyStrip_self_getLast hs c (by rw [getLast?_of_isSuffix h hne]; exact hc)

theorem dropWhile_isSuffix (p : Char → Bool) (l : Str) :
    List.IsSuffix (l.dropWhile p) l :=
  ⟨l.takeWhile p, List.takeWhile_append_dropWhile p l⟩

/-- Rendering direction for the heading regex: a line of the exact shape
`'#' * n + ' ' + t` (with `1 ≤ n ≤ 3` and `t` nonempty, not starting with
whitespace) matches with groups `(n, t)`. -/
theorem heading_match_render (n : Nat) (t : Str)
    (h1 : 1 ≤ n) (h3 : n ≤ 3) (hne : t ≠ [])
    (hhd : ∀ c, t.head? = some c → pyIsSpace c = false) :
    heading_match (List.replicate n '#' ++ ' ' :: t) = some (n, t) := by
  have hsp : ((' ' : Char) == '#') = false := by decide
  have htw : (List.replicate n '#' ++ ' ' :: t).takeWhile (· == '#')
      = List.replicate n '#' := by
    rw [takeWhile_append_all _ (fun x hx => by
      rw [List.eq_of_mem_replicate hx]; rfl)]
    rw [List.takeWhile_cons, hsp]
    simp
  have hdrop : (List.replicate n '#' ++ ' ' :: t).drop n = ' ' :: t := by
    have := List.drop_left (List.replicate n '#') (' ' :: t)
    rwa [List.length_replicate] at this
  have htwt : t.takeWhile pyIsSpace = [] := by
    cases t with
    | nil => rfl
    | cons c cs =>
      rw [List.takeWhile_cons, hhd c rfl]
      simp
  have hdwt : t.dropWhile pyIsSpace = t := dropWhile_eq_self_of_head hhd
  have hws : (' ' :: t).takeWhile pyIsSpace = [' '] := by
    rw [List.takeWhile_cons]
    have : pyIsSpace ' ' = true := by decide
    rw [this, htwt]
    simp
  have htx : (' ' :: t).dropWhile pyIsSpace = t := by
    rw [List.dropWhile_cons]
    have : pyIsSpace ' ' = true := by decide
    rw [this, hdwt]
    simp
  simp only [heading_match, htw, List.length_replicate, hdrop, hws, htx]
  have hn0 : ¬ n = 0 := by omega
  have hn3 : ¬ 3 < n := by omega
  rw [if_neg hn0, if_neg hn3]
  simp [hne]

/-- Soundness of the heading regex on a stripped line: the captured level
is in `[1,3]` and the captured text is nonempty, itself stripped, and made
of characters of the line. -/
theorem heading_match_sound {line : Str} {n : Nat} {t : Str}
    (hs : pyStrip line = line) (h : heading_match line = some (n, t)) :
    1 ≤ n ∧ n ≤ 3 ∧ t ≠ [] ∧ pyStrip t = t ∧ t ⊆ line := by
  simp only [heading_match] at h
  by_cases hn0 : (line.takeWhile (· == '#')).length = 0
  · rw [if_pos hn0] at h
    simp at h
  rw [if_neg hn0] at h
  by_cases hn3 : 3 < (line.takeWhile (· == '#')).length
  · rw [if_pos hn3] at h
    simp at h
  rw [if_neg hn3] at h
  have hrestdw : line.drop (line.takeWhile (· == '#')).length
      = line.dropWhile (· == '#') :=
    (dropWhile_eq_drop_len_takeWhile _ line).symm
  set rest := line.drop (line.takeWhile (· == '#')).length with hrest
  by_cases hws : (rest.takeWhile pyIsSpace).isEmpty
  · rw [if_pos hws] at h
    simp at h
  rw [if_neg hws] at h
  by_cases htx : !(rest.dropWhile pyIsSpace).isEmpty
  · rw [if_pos htx] at h
    -- main branch: t is the remainder after the whitespace run
    rw [Option.some.injEq, Prod.mk.injEq] at h
    obtain ⟨hn, ht⟩ := h
    have htne : t ≠ [] := by
      rw [← ht]
      intro hh
      rw [hh] at htx
      simp at htx
    have hsuffix : List.IsSuffix t line := by
      rw [← ht, hrestdw]
      exact (dropWhile_isSuffix pyIsSpace _).trans (dropWhile_isSuffix _ line)
    refine ⟨by omega, by omega, htne, ?_, hsuffix.sublist.subset⟩
    refine pyStrip_eq_self_of_suffix hsuffix hs ?_
    intro c hc
    rw [← ht] at hc
    exact head?_dropWhile_false hc
  · -- backtracking branch: impossible, the stripped line would end in
    -- whitespace
    exfalso
    rw [if_neg htx] at h
    have hrest_all : rest.dropWhile pyIsSpace = [] := by
      simpa using htx
    have hrestne : rest ≠ [] := by
      intro hh
      rw [hh] at hws
      simp [List.takeWhile] at hws
    have hrest_eq : rest.takeWhile pyIsSpace = rest := by
      have := takeWhile_append_dropWhile' pyIsSpace rest
      rw [hrest_all, List.append_nil] at this
      exact this
    obtain ⟨c, hc⟩ : ∃ c, rest.getLast? = some c :=
      ⟨rest.getLast hrestne, List.getLast?_eq_getLast rest hrestne⟩
    have hcmem : pyIsSpace c = true := by
      have hmem := List.mem_of_mem_getLast? hc
      rw [← hrest_eq] at hmem
      exact mem_takeWhile_true hmem
    have hsuffix : List.IsSuffix rest line := List.drop_suffix _ _
    have := pyStrip_self_getLast hs c
      (by rw [getLast?_of_isSuffix hsuffix hrestne]; exact hc)
    rw [hcmem] at this
    exact Bool.noConfusion this

theorem heading_match_none_of_head {line : Str} {c : Char}
    (h : line.head? = some c) (hc : ¬ c = '#') : heading_match line = none := by
  simp only [heading_match]
  cases line with
  | nil => simp at h
  | cons x xs =>
    have hx : x = c := by simpa using h
    rw [List.takeWhile_cons]
    have hxc : (x == '#') = false := by
      simp [hx, hc]
    rw [hxc]
    simp

/-- Rendering direction for the numbered-list regex: `1. t` matches with
group `t` when `t` is nonempty and does not start with whitespace. -/
theorem numbered_match_render (t : Str) (hne : t ≠ [])
    (hhd : ∀ c, t.head? = some c → pyIsSpace c = false) :
    numbered_match ('1' :: '.' :: ' ' :: t) = some t := by
  have htwt : t.takeWhile pyIsSpace = [] := by
    cases t with
    | nil => rfl
    | cons c cs =>
      rw [List.takeWhile_cons, hhd c rfl]
      simp
  have hdwt : t.dropWhile pyIsSpace = t := dropWhile_eq_self_of_head hhd
  have hds : ('1' :: '.' :: ' ' :: t).takeWhile Char.isDigit = ['1'] := by
    rw [List.takeWhile_cons]
    have h1 : ('1' : Char).isDigit = true := by decide
    rw [h1, List.takeWhile_cons]
    have h2 : ('.' : Char).isDigit = false := by decide
    rw [h2]
    simp
  simp only [numbered_match, hds]
  have hsp : pyIsSpace ' ' = true := by decide
  simp only [List.length_cons, List.length_nil, List.isEmpty_cons, List.drop_succ_cons,
    List.drop_zero, List.takeWhile_cons, hsp, List.dropWhile_cons, htwt, hdwt]
  simp [hne]

/-- Soundness of the numbered-list regex on a stripped line. -/
theorem numbered_match_sound {line : Str} {t : Str}
    (hs : pyStrip line = line) (h : numbered_match line = some t) :
    t ≠ [] ∧ pyStrip t = t ∧ t ⊆ line := by
  simp only [numbered_match] at h
  by_cases hds : (line.takeWhile Char.isDigit).isEmpty
  · rw [if_pos hds] at h
    simp at h
  rw [if_neg hds] at h
  cases hmatch : line.drop (line.takeWhile Char.isDigit).length with
  | nil =>
    rw [hmatch] at h
    simp at h
  | cons c0 rest =>
    rw [hmatch] at h
    simp only [] at h
    by_cases hc0 : c0 = '.'
    case neg =>
      rw [if_neg hc0] at h
      simp at h
    rw [if_pos hc0] at h
    have hrest_suffix : List.IsSuffix rest line := by
      have h1 : List.IsSuffix (c0 :: rest) line := by
        rw [← hmatch]
        exact List.drop_suffix _ _
      obtain ⟨u, hu⟩ := h1
      exact ⟨u ++ [c0], by rw [List.append_assoc]; simpa using hu⟩
    by_cases hws : (rest.takeWhile pyIsSpace).isEmpty
    · rw [if_pos hws] at h
      simp at h
    rw [if_neg hws] at h
    by_cases htx : !(rest.dropWhile pyIsSpace).isEmpty
    · rw [if_pos htx] at h
      rw [Option.some.injEq] at h
      have htne : t ≠ [] := by
        rw [← h]
        intro hh
        rw [hh] at htx
        simp at htx
      have hsuffix : List.IsSuffix t line := by
        rw [← h]
        exact (dropWhile_isSuffix pyIsSpace rest).trans hrest_suffix
      refine ⟨htne, ?_, hsuffix.sublist.subset⟩
      refine pyStrip_eq_self_of_suffix hsuffix hs ?_
      intro c hc
      rw [← h] at hc
      exact head?_dropWhile_false hc
    · exfalso
      rw [if_neg htx] at h
      have hrest_all : rest.dropWhile pyIsSpace = [] := by
        simpa using htx
      have hrestne : rest ≠ [] := by
        intro hh
        rw [hh] at hws
        simp [List.takeWhile] at hws
      have hrest_eq : rest.takeWhile pyIsSpace = rest := by
        have := takeWhile_append_dropWhile' pyIsSpace rest
        rw [hrest_all, List.append_nil] at this
        exact this
      obtain ⟨c, hc⟩ : ∃ c, rest.getLast? = some c :=
        ⟨rest.getLast hrestne, List.getLast?_eq_getLast rest hrestne⟩
      have hcmem : pyIsSpace c = true := by
        have hmem := List.mem_of_mem_getLast? hc
        rw [← hrest_eq] at hmem
        exact mem_takeWhile_true hmem
      have := pyStrip_self_getLast hs c
        (by rw [getLast?_of_isSuffix hrest_suffix hrestne]; exact hc)
      rw [hcmem] at this
      exact Bool.noConfusion this

theorem numbered_match_none_of_head {line : Str} {c : Char}
    (h : line.head? = some c) (hc : c.isDigit = false) :
    numbered_match line = none := by
  simp only [numbered_match]
  cases line with
  | nil => simp at h
  | cons x xs =>
    have hx : x = c := by simpa using h
    rw [List.takeWhile_cons, hx, hc]
    simp

theorem render_paragraph (t : Str) :
    block_to_markdown_lines (create_paragraph_block t) = some [t] := by
  simp [block_to_markdown_lines, create_paragraph_block, jlookup, ofStr,
    get_rich_text_field, get_text_from_rich_text, rich_text_arr,
    rich_text_item_text, rich_texts_join]

theorem render_heading (t : Str) (n : Nat) (h1 : 1 ≤ n) (h3 : n ≤ 3) :
    block_to_markdown_lines (create_heading_block t n)
      = some [List.replicate n '#' ++ ' ' :: t] := by
  have hn : n = 1 ∨ n = 2 ∨ n = 3 := by omega
  rcases hn with rfl | rfl | rfl <;>
    simp [block_to_markdown_lines, create_heading_block, natToDigits,
      natDigitsAux, decDigit, jlookup, ofStr, get_rich_text_field,
      get_text_from_rich_text, rich_text_arr, rich_text_item_text,
      rich_texts_join, List.replicate]

theorem render_code (code lang : Str) :
    block_to_markdown_lines (create_code_block code lang)
      = some [ofStr "```" ++ lang, code, ofStr "```"] := by
  simp [block_to_markdown_lines, create_code_block, jlookup, ofStr,
    get_rich_text_field, get_text_from_rich_text, rich_text_arr,
    rich_text_item_text, rich_texts_join]

theorem render_quote (t : Str) :
    block_to_markdown_lines (create_quote_block t) = some [ofStr "> " ++ t] := by
  simp [block_to_markdown_lines, create_quote_block, jlookup, ofStr,
    get_rich_text_field, get_text_from_rich_text, rich_text_arr,
    rich_text_item_text, rich_texts_join]

theorem render_bullet (t : Str) :
    block_to_markdown_lines (create_bullet_list_item t)
      = some [ofStr "- " ++ t] := by
  simp [block_to_markdown_lines, create_bullet_list_item, jlookup, ofStr,
    get_rich_text_field, get_text_from_rich_text, rich_text_arr,
    rich_text_item_text, rich_texts_join]

theorem render_numbered (t : Str) :
    block_to_markdown_lines (create_numbered_list_item t)
      = some [ofStr "1. " ++ t] := by
  simp [block_to_markdown_lines, create_numbered_list_item, jlookup, ofStr,
    get_rich_text_field, get_text_from_rich_text, rich_text_arr,
    rich_text_item_text, rich_texts_join]

theorem isPrefixOf_append_self (a t : Str) : a.isPrefixOf (a ++ t) = true :=
  List.isPrefixOf_iff_prefix.mpr ⟨t, rfl⟩

theorem isPrefixOf_false_of_head {a : Char} {as line : Str} {c : Char}
    (h : line.head? = some c) (hne : a ≠ c) : (a :: as).isPrefixOf line = false := by
  cases line with
  | nil => simp at h
  | cons x xs =>
    have hx : x = c := by simpa using h
    subst hx
    simp [List.isPrefixOf, hne]

theorem isPrefixOf_head {a : Char} {as line : Str}
    (h : (a :: as).isPrefixOf line = true) : line.head? = some a := by
  obtain ⟨t, ht⟩ := List.isPrefixOf_iff_prefix.mp h
  rw [← ht]
  rfl

/-- Splitting off the two-character prefixes `"- "`, `"* "`, `"> "`. -/
theorem isPrefixOf_two_iff (c1 c2 : Char) (line : Str) :
    ([c1, c2].isPrefixOf line = true) ↔ ∃ t, line = c1 :: c2 :: t := by
  constructor
  · intro h
    obtain ⟨t, ht⟩ := List.isPrefixOf_iff_prefix.mp h
    exact ⟨t, by rw [← ht]; rfl⟩
  · rintro ⟨t, rfl⟩
    exact List.isPrefixOf_iff_prefix.mpr ⟨t, rfl⟩

theorem splitLines_joinLines_id (ms : List Str) (h : ∀ x ∈ ms, '\n' ∉ x)
    (hne : ms ≠ []) : splitLines (joinLines ms) = ms := by
  rw [splitLines_joinLines ms hne]
  have : ∀ x ∈ ms, splitLines x = [x] :=
    fun x hx => splitLines_eq_single x (h x hx)
  calc ms.flatMap splitLines = ms.flatMap (fun x => [x]) := by
        apply List.flatMap_congr
        exact this
    _ = ms := by simp

/-- Well-formedness invariant of the blocks `markdown_to_blocks` emits:
together with the shape of each constructor it makes the rendered text of
a block parse back to the very same block. -/
inductive WFBlock : JVal → Prop where
  | heading (n : Nat) (t : Str) :
      1 ≤ n → n ≤ 3 → t ≠ [] → pyStrip t = t → '\n' ∉ t →
      WFBlock (create_heading_block t n)
  | para (t : Str) :
      t ≠ [] → pyStrip t = t → '\n' ∉ t →
      heading_match t = none →
      (ofStr "```").isPrefixOf t = false →
      (ofStr "- ").isPrefixOf t = false →
      (ofStr "* ").isPrefixOf t = false →
      numbered_match t = none →
      (ofStr "> ").isPrefixOf t = false →
      WFBlock (create_paragraph_block t)
  | code (text lang : Str) :
      pyStrip lang = lang → '\n' ∉ lang →
      (∀ l ∈ splitLines text, fence_test l = false) →
      WFBlock (create_code_block text lang)
  | quote (t : Str) :
      t ≠ [] → pyStrip t = t → '\n' ∉ t → WFBlock (create_quote_block t)
  | bullet (t : Str) :
      t ≠ [] → pyStrip t = t → '\n' ∉ t → WFBlock (create_bullet_list_item t)
  | numbered (t : Str) :
      t ≠ [] → pyStrip t = t → '\n' ∉ t → WFBlock (create_numbered_list_item t)

theorem pyStrip_drop_two_ne_nil {line : Str} {c1 c2 : Char} {t0 : Str}
    (hs : pyStrip line = line) (hline : line = c1 :: c2 :: t0)
    (hc2 : pyIsSpace c2 = true) : pyStrip t0 ≠ [] := by
  cases t0 with
  | nil =>
    exfalso
    have hlast : line.getLast? = some c2 := by
      rw [hline]
      rfl
    have := pyStrip_self_getLast hs c2 hlast
    rw [hc2] at this
    exact Bool.noConfusion this
  | cons x xs =>
    have hsuffix : List.IsSuffix (x :: xs) line := ⟨[c1, c2], by simp [hline]⟩
    obtain ⟨c, hc⟩ : ∃ c, (x :: xs).getLast? = some c :=
      ⟨(x :: xs).getLast (by simp), List.getLast?_eq_getLast _ _⟩
    have hcf : pyIsSpace c = false := by
      apply pyStrip_self_getLast hs c
      rw [getLast?_of_isSuffix hsuffix (by simp)]
      exact hc
    exact pyStrip_ne_nil_of_mem (List.mem_of_mem_getLast? hc) hcf

theorem noNL_of_subset {t l : Str} (hsub : t ⊆ l) (h : '\n' ∉ l) : '\n' ∉ t :=
  fun hm => h (hsub hm)

/-- Every block produced by the `markdown_to_blocks` loop from
newline-free lines satisfies the well-formedness invariant. -/
theorem WF_loop : ∀ (N : Nat) (ls : List Str), ls.length ≤ N →
    (∀ l ∈ ls, '\n' ∉ l) → ∀ b ∈ markdown_to_blocks_loop ls, WFBlock b := by
  intro N
  induction N with
  | zero =>
    intro ls hlen _ b hb
    have : ls = [] := List.length_eq_zero.mp (Nat.le_zero.mp hlen)
    rw [this, loop_nil] at hb
    simp at hb
  | succ N ih =>
    intro ls hlen hnl b hb
    cases ls with
    | nil =>
      rw [loop_nil] at hb
      simp at hb
    | cons l rest =>
      have hnl_l : '\n' ∉ l := hnl l (List.mem_cons_self l rest)
      have hnl_rest : ∀ x ∈ rest, '\n' ∉ x :=
        fun x hx => hnl x (List.mem_cons_of_mem l hx)
      have hlen_rest : rest.length ≤ N := by
        simp only [List.length_cons] at hlen
        omega
      have hnl_strip : '\n' ∉ pyStrip l := noNL_of_subset (pyStrip_subset l) hnl_l
      by_cases hblank : pyStrip l = []
      · rw [loop_blank l rest hblank] at hb
        exact ih rest hlen_rest hnl_rest b hb
      cases hm : heading_match (pyStrip l) with
      | some nt =>
        obtain ⟨n, t⟩ := nt
        rw [loop_heading l rest n t hm hblank] at hb
        rcases List.mem_cons.mp hb with rfl | hb'
        · obtain ⟨h1, h3, htne, hts, hsub⟩ := heading_match_sound (pyStrip_idem l) hm
          exact WFBlock.heading n t h1 h3 htne hts
            (noNL_of_subset hsub hnl_strip)
        · exact ih rest hlen_rest hnl_rest b hb'
      | none =>
        by_cases hf : (ofStr "```").isPrefixOf (pyStrip l) = true
        · rw [loop_fence l rest hblank hm hf] at hb
          rcases List.mem_cons.mp hb with rfl | hb'
          · refine WFBlock.code _ _ (pyStrip_idem _) ?_ ?_
            · refine noNL_of_subset ?_ hnl_strip
              exact (pyStrip_subset _).trans (List.drop_subset _ _)
            · intro l' hl'
              cases hcl : rest.takeWhile (fun s => !fence_test s) with
              | nil =>
                rw [hcl] at hl'
                have : splitLines (joinLines ([] : List Str)) = [[]] := by
                  simp [joinLines, splitLines]
                rw [this] at hl'
                have : l' = [] := by simpa using hl'
                rw [this]
                decide
              | cons m ms =>
                rw [hcl] at hl'
                rw [splitLines_joinLines_id (m :: ms)
                  (fun x hx => hnl_rest x
                    ((List.takeWhile_prefix _).sublist.subset (hcl ▸ hx)))
                  (by simp)] at hl'
                have := mem_takeWhile_true (hcl ▸ hl' :
                  l' ∈ rest.takeWhile (fun s => !fence_test s))
                simpa using this
          · refine ih _ ?_ ?_ b hb'
            · have hle1 : ((rest.dropWhile (fun s => !fence_test s)).drop 1).length
                  ≤ (rest.dropWhile (fun s => !fence_test s)).length :=
                (List.drop_sublist _ _).length_le
              have hle2 : (rest.dropWhile (fun s => !fence_test s)).length
                  ≤ rest.length := (List.dropWhile_sublist _).length_le
              omega
            · intro x hx
              exact hnl_rest x
                ((List.dropWhile_sublist _).subset (List.drop_subset _ _ hx))
        · have hf' : (ofStr "```").isPrefixOf (pyStrip l) = false :=
            Bool.eq_false_iff.mpr hf
          by_cases hbstar : ((ofStr "- ").isPrefixOf (pyStrip l)
              || (ofStr "* ").isPrefixOf (pyStrip l)) = true
          · rw [loop_bullet l rest hblank hm hf' hbstar] at hb
            rcases List.mem_cons.mp hb with rfl | hb'
            · have hpref : ∃ c1 t0, pyStrip l = c1 :: ' ' :: t0 := by
                rcases Bool.or_eq_true_iff.mp hbstar with hp | hp
                · obtain ⟨t0, ht0⟩ := (isPrefixOf_two_iff '-' ' ' _).mp hp
                  exact ⟨'-', t0, ht0⟩
                · obtain ⟨t0, ht0⟩ := (isPrefixOf_two_iff '*' ' ' _).mp hp
                  exact ⟨'*', t0, ht0⟩
              obtain ⟨c1, t0, ht0⟩ := hpref
              have hdrop2 : (pyStrip l).drop 2 = t0 := by
                rw [ht0]
                rfl
              have hx1 : pyStrip ((pyStrip l).drop 2) ≠ [] := by
                rw [hdrop2]
                exact pyStrip_drop_two_ne_nil (pyStrip_idem l) ht0 (by decide)
              have hx3 : '\n' ∉ pyStrip ((pyStrip l).drop 2) :=
                noNL_of_subset
                  ((pyStrip_subset _).trans (List.drop_subset _ _)) hnl_strip
              exact WFBlock.bullet _ hx1 (pyStrip_idem _) hx3
            · exact ih rest hlen_rest hnl_rest b hb'
          · have hb1 : (ofStr "- ").isPrefixOf (pyStrip l) = false := by
              rcases Bool.or_eq_false_iff.mp (Bool.eq_false_iff.mpr hbstar)
                with ⟨hx, _⟩
              exact hx
            have hb2 : (ofStr "* ").isPrefixOf (pyStrip l) = false := by
              rcases Bool.or_eq_false_iff.mp (Bool.eq_false_iff.mpr hbstar)
                with ⟨_, hx⟩
              exact hx
            cases hn : numbered_match (pyStrip l) with
            | some t =>
              rw [loop_numbered l rest t hblank hm hf' hb1 hb2 hn] at hb
              rcases List.mem_cons.mp hb with rfl | hb'
              · obtain ⟨htne, hts, hsub⟩ := numbered_match_sound (pyStrip_idem l) hn
                exact WFBlock.numbered t htne hts (noNL_of_subset hsub hnl_strip)
              · exact ih rest hlen_rest hnl_rest b hb'
            | none =>
              by_cases hq : (ofStr "> ").isPrefixOf (pyStrip l) = true
              · rw [loop_quote l rest hblank hm hf' hb1 hb2 hn hq] at hb
                rcases List.mem_cons.mp hb with rfl | hb'
                · obtain ⟨t0, ht0⟩ := (isPrefixOf_two_iff '>' ' ' _).mp hq
                  have hdrop2 : (pyStrip l).drop 2 = t0 := by
                    rw [ht0]
                    rfl
                  have hx1 : pyStrip ((pyStrip l).drop 2) ≠ [] := by
                    rw [hdrop2]
                    exact pyStrip_drop_two_ne_nil (pyStrip_idem l) ht0 (by decide)
                  have hx3 : '\n' ∉ pyStrip ((pyStrip l).drop 2) :=
                    noNL_of_subset
                      ((pyStrip_subset _).trans (List.drop_subset _ _)) hnl_strip
                  exact WFBlock.quote _ hx1 (pyStrip_idem _) hx3
                · exact ih rest hlen_rest hnl_rest b hb'
              · have hq' : (ofStr "> ").isPrefixOf (pyStrip l) = false :=
                  Bool.eq_false_iff.mpr hq
                rw [loop_paragraph l rest hblank hm hf' hb1 hb2 hn hq'] at hb
                rcases List.mem_cons.mp hb with rfl | hb'
                · exact WFBlock.para _ hblank (pyStrip_idem l) hnl_strip hm hf'
                    hb1 hb2 hn hq'
                · exact ih rest hlen_rest hnl_rest b hb'

/-- Every block of `markdown_to_blocks` satisfies the invariant. -/
theorem WF_markdown_to_blocks (s : Str) :
    ∀ b ∈ markdown_to_blocks s, WFBlock b :=
  WF_loop (splitLines s).length (splitLines s) (le_refl _)
    (fun l hl => noNL_of_mem_splitLines s l hl)

theorem pyStrip_self_render {c : Char} (mid t : Str)
    (hc : pyIsSpace c = false) (ht : pyStrip t = t) (htne : t ≠ []) :
    pyStrip (c :: (mid ++ t)) = c :: (mid ++ t) := by
  apply pyStrip_eq_self_of_ends
  · intro d hd
    have : d = c := by simpa using hd.symm
    rw [this]
    exact hc
  · intro d hd
    have hsuffix : List.IsSuffix t (c :: (mid ++ t)) := ⟨c :: mid, by simp⟩
    rw [getLast?_of_isSuffix hsuffix htne] at hd
    exact pyStrip_self_getLast ht d hd

theorem reparse_heading (n : Nat) (t : Str)
    (h1 : 1 ≤ n) (h3 : n ≤ 3) (htne : t ≠ []) (hts : pyStrip t = t) :
    ∀ rest, markdown_to_blocks_loop ((List.replicate n '#' ++ ' ' :: t) :: [] :: rest)
      = create_heading_block t n :: markdown_to_blocks_loop rest := by
  intro rest
  obtain ⟨m, rfl⟩ : ∃ m, n = m + 1 := ⟨n - 1, by omega⟩
  have hshape : List.replicate (m + 1) '#' ++ ' ' :: t
      = '#' :: ((List.replicate m '#' ++ [' ']) ++ t) := by
    simp [List.replicate_succ]
  have hstrip : pyStrip (List.replicate (m + 1) '#' ++ ' ' :: t)
      = List.replicate (m + 1) '#' ++ ' ' :: t := by
    rw [hshape]
    exact pyStrip_self_render _ _ (by decide) hts htne
  have hmatch : heading_match (pyStrip (List.replicate (m + 1) '#' ++ ' ' :: t))
      = some (m + 1, t) := by
    rw [hstrip]
    exact heading_match_render (m + 1) t h1 h3 htne (pyStrip_self_head hts)
  rw [loop_heading _ ([] :: rest) (m + 1) t hmatch (by rw [hstrip]; simp),
    loop_blank [] rest rfl]

theorem reparse_paragraph (t : Str)
    (htne : t ≠ []) (hts : pyStrip t = t)
    (hm : heading_match t = none)
    (hfp : (ofStr "```").isPrefixOf t = false)
    (hb1 : (ofStr "- ").isPrefixOf t = false)
    (hb2 : (ofStr "* ").isPrefixOf t = false)
    (hn : numbered_match t = none)
    (hq : (ofStr "> ").isPrefixOf t = false) :
    ∀ rest, markdown_to_blocks_loop (t :: [] :: rest)
      = create_paragraph_block t :: markdown_to_blocks_loop rest := by
  intro rest
  rw [loop_paragraph t ([] :: rest) (by rw [hts]; exact htne) (by rw [hts]; exact hm)
    (by rw [hts]; exact hfp) (by rw [hts]; exact hb1) (by rw [hts]; exact hb2)
    (by rw [hts]; exact hn) (by rw [hts]; exact hq), hts,
    loop_blank [] rest rfl]

theorem reparse_quote (t : Str) (htne : t ≠ []) (hts : pyStrip t = t) :
    ∀ rest, markdown_to_blocks_loop ((ofStr "> " ++ t) :: [] :: rest)
      = create_quote_block t :: markdown_to_blocks_loop rest := by
  intro rest
  have hshape : ofStr "> " ++ t = '>' :: ([' '] ++ t) := rfl
  have hstrip : pyStrip (ofStr "> " ++ t) = ofStr "> " ++ t := by
    rw [hshape]
    exact pyStrip_self_render _ _ (by decide) hts htne
  have hhd : (ofStr "> " ++ t).head? = some '>' := rfl
  rw [loop_quote _ ([] :: rest) (by rw [hstrip]; simp [hshape])
    (by rw [hstrip]; exact heading_match_none_of_head hhd (by decide))
    (by rw [hstrip]; exact isPrefixOf_false_of_head hhd (by decide))
    (by rw [hstrip]; exact isPrefixOf_false_of_head hhd (by decide))
    (by rw [hstrip]; exact isPrefixOf_false_of_head hhd (by decide))
    (by rw [hstrip]; exact numbered_match_none_of_head hhd (by decide))
    (by rw [hstrip]; exact isPrefixOf_append_self (ofStr "> ") t)]
  rw [hstrip]
  have hdrop : (ofStr "> " ++ t).drop 2 = t := rfl
  rw [hdrop, hts, loop_blank [] rest rfl]

theorem reparse_bullet (t : Str) (htne : t ≠ []) (hts : pyStrip t = t) :
    ∀ rest, markdown_to_blocks_loop ((ofStr "- " ++ t) :: [] :: rest)
      = create_bullet_list_item t :: markdown_to_blocks_loop rest := by
  intro rest
  have hshape : ofStr "- " ++ t = '-' :: ([' '] ++ t) := rfl
  have hstrip : pyStrip (ofStr "- " ++ t) = ofStr "- " ++ t := by
    rw [hshape]
    exact pyStrip_self_render _ _ (by decide) hts htne
  have hhd : (ofStr "- " ++ t).head? = some '-' := rfl
  rw [loop_bullet _ ([] :: rest) (by rw [hstrip]; simp [hshape])
    (by rw [hstrip]; exact heading_match_none_of_head hhd (by decide))
    (by rw [hstrip]; exact isPrefixOf_false_of_head hhd (by decide))
    (by
      rw [hstrip]
      have := isPrefixOf_append_self (ofStr "- ") t
      rw [this]
      simp)]
  rw [hstrip]
  have hdrop : (ofStr "- " ++ t).drop 2 = t := rfl
  rw [hdrop, hts, loop_blank [] rest rfl]

theorem reparse_numbered (t : Str) (htne : t ≠ []) (hts : pyStrip t = t) :
    ∀ rest, markdown_to_blocks_loop ((ofStr "1. " ++ t) :: [] :: rest)
      = create_numbered_list_item t :: markdown_to_blocks_loop rest := by
  intro rest
  have hshape : ofStr "1. " ++ t = '1' :: (['.', ' '] ++ t) := rfl
  have hstrip : pyStrip (ofStr "1. " ++ t) = ofStr "1. " ++ t := by
    rw [hshape]
    exact pyStrip_self_render _ _ (by decide) hts htne
  have hhd : (ofStr "1. " ++ t).head? = some '1' := rfl
  have hnum : numbered_match (ofStr "1. " ++ t) = some t := by
    have : ofStr "1. " ++ t = '1' :: '.' :: ' ' :: t := rfl
    rw [this]
    exact numbered_match_render t htne (pyStrip_self_head hts)
  rw [loop_numbered _ ([] :: rest) t (by rw [hstrip]; simp [hshape])
    (by rw [hstrip]; exact heading_match_none_of_head hhd (by decide))
    (by rw [hstrip]; exact isPrefixOf_false_of_head hhd (by decide))
    (by rw [hstrip]; exact isPrefixOf_false_of_head hhd (by decide))
    (by rw [hstrip]; exact isPrefixOf_false_of_head hhd (by decide))
    (by rw [hstrip]; exact hnum), loop_blank [] rest rfl]

theorem takeWhile_eq_self_of_all {α : Type} {p : α → Bool} {a : List α}
    (h : ∀ x ∈ a, p x = true) : a.takeWhile p = a := by
  have := takeWhile_append_all (p := p) (a := a) [] h
  simpa using this

theorem dropWhile_eq_nil_of_all {α : Type} {p : α → Bool} {a : List α}
    (h : ∀ x ∈ a, p x = true) : a.dropWhile p = [] := by
  have := dropWhile_append_all (p := p) (a := a) [] h
  simpa using this

/-- A code fence with a closing candidate line: the opening line's
trailing text is the language, the enclosed lines become the code text
verbatim, and the closing line is consumed and excluded. -/
theorem loop_fence_closed (o : Str) (body : List Str) (close : Str)
    (rest : List Str)
    (ho : (ofStr "```").isPrefixOf (pyStrip o) = true)
    (hbody : ∀ l ∈ body, fence_test l = false)
    (hclose : fence_test close = true) :
    markdown_to_blocks_loop (o :: (body ++ close :: rest))
      = create_code_block (joinLines body) (pyStrip ((pyStrip o).drop 3))
        :: markdown_to_blocks_loop rest := by
  have hhd : (pyStrip o).head? = some '`' := isPrefixOf_head ho
  have hblank : pyStrip o ≠ [] := by
    intro hh
    rw [hh] at hhd
    simp at hhd
  have hm : heading_match (pyStrip o) = none :=
    heading_match_none_of_head hhd (by decide)
  rw [loop_fence o _ hblank hm ho]
  have htake : (body ++ close :: rest).takeWhile (fun s => !fence_test s)
      = body := by
    rw [takeWhile_append_all _ (fun x hx => by simp [hbody x hx])]
    rw [List.takeWhile_cons]
    simp [hclose]
  have hdrop : ((body ++ close :: rest).dropWhile
      (fun s => !fence_test s)).drop 1 = rest := by
    rw [dropWhile_append_all _ (fun x hx => by simp [hbody x hx])]
    rw [List.dropWhile_cons]
    simp [hclose]
  rw [htake, hdrop]

/-- A code fence with no closing candidate before end of input: all
remaining lines become the code text; no failure occurs. -/
theorem loop_fence_unclosed (o : Str) (body : List Str)
    (ho : (ofStr "```").isPrefixOf (pyStrip o) = true)
    (hbody : ∀ l ∈ body, fence_test l = false) :
    markdown_to_blocks_loop (o :: body)
      = [create_code_block (joinLines body) (pyStrip ((pyStrip o).drop 3))] := by
  have hhd : (pyStrip o).head? = some '`' := isPrefixOf_head ho
  have hblank : pyStrip o ≠ [] := by
    intro hh
    rw [hh] at hhd
    simp at hhd
  have hm : heading_match (pyStrip o) = none :=
    heading_match_none_of_head hhd (by decide)
  rw [loop_fence o _ hblank hm ho]
  rw [takeWhile_eq_self_of_all (fun x hx => by simp [hbody x hx])]
  rw [dropWhile_eq_nil_of_all (fun x hx => by simp [hbody x hx])]
  simp [loop_nil]

theorem pyStrip_fence_open (lang : Str) (hl : pyStrip lang = lang) :
    pyStrip (ofStr "```" ++ lang) = ofStr "```" ++ lang := by
  cases hlang : lang with
  | nil => decide
  | cons x xs =>
    have hshape : ofStr "```" ++ lang = '`' :: ((['`', '`'] : Str) ++ lang) := by
      rw [hlang]
      rfl
    rw [← hlang, hshape]
    exact pyStrip_self_render _ _ (by decide) (hlang ▸ hl) (by simp [hlang])

theorem reparse_code (text lang : Str) (hl : pyStrip lang = lang)
    (htext : ∀ l ∈ splitLines text, fence_test l = false) :
    ∀ rest, markdown_to_blocks_loop
        ((ofStr "```" ++ lang) :: (splitLines text ++ (ofStr "```") :: [] :: rest))
      = create_code_block text lang :: markdown_to_blocks_loop rest := by
  intro rest
  have hself := pyStrip_fence_open lang hl
  have ho : (ofStr "```").isPrefixOf (pyStrip (ofStr "```" ++ lang)) = true := by
    rw [hself]
    exact isPrefixOf_append_self _ _
  have hstep := loop_fence_closed (ofStr "```" ++ lang) (splitLines text)
    (ofStr "```") ([] :: rest) ho htext (by decide)
  rw [hstep, hself]
  have hdrop3 : (ofStr "```" ++ lang).drop 3 = lang := rfl
  rw [hdrop3, hl, joinLines_splitLines, loop_blank [] rest rfl]

theorem splitLines_nil : splitLines ([] : Str) = [[]] := rfl

/-- Every well-formed block renders to lines that, followed by the blank
separator, parse back to exactly that block. -/
theorem reparse_block (b : JVal) (wf : WFBlock b) :
    ∃ els, block_to_markdown_lines b = some els ∧
      ∀ rest, markdown_to_blocks_loop ((els ++ [[]]).flatMap splitLines ++ rest)
        = b :: markdown_to_blocks_loop rest := by
  cases wf with
  | heading n t h1 h3 htne hts hnl =>
    refine ⟨_, render_heading t n h1 h3, ?_⟩
    intro rest
    have hlnl : '\n' ∉ List.replicate n '#' ++ ' ' :: t := by
      intro hmem
      rcases List.mem_append.mp hmem with hx | hx
      · have := List.eq_of_mem_replicate hx
        exact absurd this (by decide)
      · rcases List.mem_cons.mp hx with hx1 | hx1
        · exact absurd hx1 (by decide)
        · exact hnl hx1
    have : (([List.replicate n '#' ++ ' ' :: t] ++ [[]]).flatMap splitLines)
        = [List.replicate n '#' ++ ' ' :: t, []] := by
      simp [List.flatMap_cons, splitLines_eq_single _ hlnl, splitLines]
    rw [this]
    exact reparse_heading n t h1 h3 htne hts rest
  | para t htne hts hnl hm hfp hb1 hb2 hn hq =>
    refine ⟨_, render_paragraph t, ?_⟩
    intro rest
    have : (([t] ++ [[]]).flatMap splitLines) = [t, []] := by
      simp [List.flatMap_cons, splitLines_eq_single _ hnl, splitLines]
    rw [this]
    exact reparse_paragraph t htne hts hm hfp hb1 hb2 hn hq rest
  | code text lang hl hlnl htext =>
    refine ⟨_, render_code text lang, ?_⟩
    intro rest
    have hopen_nl : '\n' ∉ ofStr "```" ++ lang := by
      intro hmem
      rcases List.mem_append.mp hmem with hx | hx
      · exact absurd hx (by decide)
      · exact hlnl hx
    have hexp : (([ofStr "```" ++ lang, text, ofStr "```"] ++ [[]]).flatMap splitLines)
        = (ofStr "```" ++ lang) :: (splitLines text ++ (ofStr "```") :: [[]]) := by
      simp [List.flatMap_cons, splitLines_eq_single _ hopen_nl,
        splitLines_eq_single (ofStr "```") (by decide), splitLines_nil]
    rw [hexp]
    have := reparse_code text lang hl htext rest
    simpa using this
  | quote t htne hts hnl =>
    refine ⟨_, render_quote t, ?_⟩
    intro rest
    have hqnl : '\n' ∉ ofStr "> " ++ t := by
      intro hmem
      rcases List.mem_append.mp hmem with hx | hx
      · exact absurd hx (by decide)
      · exact hnl hx
    have hsp1 : splitLines (ofStr "> " ++ t) = [ofStr "> " ++ t] :=
      splitLines_eq_single _ hqnl
    have : (([ofStr "> " ++ t] ++ [[]]).flatMap splitLines) = [ofStr "> " ++ t, []] := by
      rw [List.singleton_append, List.flatMap_cons, List.flatMap_cons,
        List.flatMap_nil, hsp1, splitLines_nil]
      rfl
    rw [this]
    exact reparse_quote t htne hts rest
  | bullet t htne hts hnl =>
    refine ⟨_, render_bullet t, ?_⟩
    intro rest
    have hbnl : '\n' ∉ ofStr "- " ++ t := by
      intro hmem
      rcases List.mem_append.mp hmem with hx | hx
      · exact absurd hx (by decide)
      · exact hnl hx
    have hsp1 : splitLines (ofStr "- " ++ t) = [ofStr "- " ++ t] :=
      splitLines_eq_single _ hbnl
    have : (([ofStr "- " ++ t] ++ [[]]).flatMap splitLines) = [ofStr "- " ++ t, []] := by
      rw [List.singleton_append, List.flatMap_cons, List.flatMap_cons,
        List.flatMap_nil, hsp1, splitLines_nil]
      rfl
    rw [this]
    exact reparse_bullet t htne hts rest
  | numbered t htne hts hnl =>
    refine ⟨_, render_numbered t, ?_⟩
    intro rest
    have hnnl : '\n' ∉ ofStr "1. " ++ t := by
      intro hmem
      rcases List.mem_append.mp hmem with hx | hx
      · exact absurd hx (by decide)
      · exact hnl hx
    have hsp1 : splitLines (ofStr "1. " ++ t) = [ofStr "1. " ++ t] :=
      splitLines_eq_single _ hnnl
    have : (([ofStr "1. " ++ t] ++ [[]]).flatMap splitLines) = [ofStr "1. " ++ t, []] := by
      rw [List.singleton_append, List.flatMap_cons, List.flatMap_cons,
        List.flatMap_nil, hsp1, splitLines_nil]
      rfl
    rw [this]
    exact reparse_numbered t htne hts rest

theorem reparse_blocks (bs : List JVal) (hwf : ∀ b ∈ bs, WFBlock b) :
    ∃ ls, blocks_to_markdown_lines bs = some ls ∧
      ∀ rest, markdown_to_blocks_loop (ls.flatMap splitLines ++ rest)
        = bs ++ markdown_to_blocks_loop rest := by
  induction bs with
  | nil =>
    refine ⟨[], rfl, ?_⟩
    intro rest
    simp
  | cons b bs ih =>
    obtain ⟨els, hels, hstep⟩ := reparse_block b (hwf b (List.mem_cons_self b bs))
    obtain ⟨ls', hls', hrest⟩ := ih (fun x hx => hwf x (List.mem_cons_of_mem b hx))
    refine ⟨els ++ [[]] ++ ls', ?_, ?_⟩
    · simp [blocks_to_markdown_lines, hels, hls']
    · intro rest
      rw [List.flatMap_append, List.append_assoc]
      rw [hstep (ls'.flatMap splitLines ++ rest), hrest rest]
      simp

theorem blocks_to_markdown_lines_eq_nil {bs : List JVal}
    (h : blocks_to_markdown_lines bs = some []) : bs = [] := by
  cases bs with
  | nil => rfl
  | cons b bs =>
    exfalso
    simp only [blocks_to_markdown_lines] at h
    cases hb : block_to_markdown_lines b with
    | none => rw [hb] at h; simp at h
    | some els =>
      rw [hb] at h
      cases hbs : blocks_to_markdown_lines bs with
      | none => rw [hbs] at h; simp at h
      | some ls' =>
        rw [hbs] at h
        simp at h

/-- The central round-trip fact: for any body, rendering the parsed
blocks back to text succeeds, and re-parsing that text yields exactly the
same block sequence. -/
theorem markdown_roundtrip (s : Str) :
    ∃ d, blocks_to_markdown (markdown_to_blocks s) = some d ∧
      markdown_to_blocks d = markdown_to_blocks s := by
  obtain ⟨ls, hls, hloop⟩ :=
    reparse_blocks (markdown_to_blocks s) (WF_markdown_to_blocks s)
  refine ⟨joinLines ls, ?_, ?_⟩
  · simp [blocks_to_markdown, hls]
  · by_cases hlsnil : ls = []
    · rw [hlsnil] at hls
      have hbs : markdown_to_blocks s = [] := blocks_to_markdown_lines_eq_nil hls
      rw [hbs, hlsnil]
      show markdown_to_blocks_loop (splitLines (joinLines [])) = []
      rw [show joinLines ([] : List Str) = [] from rfl, splitLines_nil,
        loop_blank [] [] rfl, loop_nil]
    · show markdown_to_blocks_loop (splitLines (joinLines ls)) = _
      rw [splitLines_joinLines ls hlsnil]
      have := hloop []
      rw [List.append_nil, loop_nil, List.append_nil] at this
      exact this

/-- An input-side description of bodies built from the supported
line shapes: blank lines, single block-producing lines, and complete
fenced code regions. -/
inductive Seg : Type where
  | blank (l : Str)
  | simple (l : Str)
  | fence (o : Str) (body : List Str) (close : Str)

/-- The physical lines of one segment. -/
def segLines : Seg → List Str
  | .blank l => [l]
  | .simple l => [l]
  | .fence o body close => o :: body ++ [close]

/-- Well-formedness of a segment: a blank segment strips to nothing, a
simple segment is a non-blank line that does not open a fence, and a fence
segment is an opening fence line, interior lines none of which is a fence
candidate, and a closing fence candidate.  All lines are newline-free. -/
def segWF : Seg → Prop
  | .blank l => pyStrip l = [] ∧ '\n' ∉ l
  | .simple l => pyStrip l ≠ [] ∧ fence_test l = false ∧ '\n' ∉ l
  | .fence o body close => fence_test o = true ∧ '\n' ∉ o ∧
      (∀ x ∈ body, fence_test x = false ∧ '\n' ∉ x) ∧
      fence_test close = true ∧ '\n' ∉ close

/-- Whether a segment contributes a block (blank lines do not). -/
def segIsBlock : Seg → Bool
  | .blank _ => false
  | _ => true

/-- A non-blank, non-fence-opening line always produces exactly one block
and the loop continues on the remaining lines. -/
theorem loop_simple_line (l : Str) (rest : List Str)
    (hne : pyStrip l ≠ []) (hnf : fence_test l = false) :
    ∃ b, markdown_to_blocks_loop (l :: rest)
      = b :: markdown_to_blocks_loop rest := by
  have hnf' : (ofStr "```").isPrefixOf (pyStrip l) = false := hnf
  cases hm : heading_match (pyStrip l) with
  | some nt =>
    obtain ⟨n, t⟩ := nt
    exact ⟨_, loop_heading l rest n t hm hne⟩
  | none =>
    by_cases hbstar : ((ofStr "- ").isPrefixOf (pyStrip l)
        || (ofStr "* ").isPrefixOf (pyStrip l)) = true
    · exact ⟨_, loop_bullet l rest hne hm hnf' hbstar⟩
    · obtain ⟨hb1, hb2⟩ := Bool.or_eq_false_iff.mp (Bool.eq_false_iff.mpr hbstar)
      cases hn : numbered_match (pyStrip l) with
      | some t => exact ⟨_, loop_numbered l rest t hne hm hnf' hb1 hb2 hn⟩
      | none =>
        by_cases hq : (ofStr "> ").isPrefixOf (pyStrip l) = true
        · exact ⟨_, loop_quote l rest hne hm hnf' hb1 hb2 hn hq⟩
        · exact ⟨_, loop_paragraph l rest hne hm hnf' hb1 hb2 hn
            (Bool.eq_false_iff.mpr hq)⟩

/-- Block count over a segment list: one block per non-blank simple line,
one per fence region, none for blank lines. -/
theorem loop_segs (segs : List Seg) (h : ∀ g ∈ segs, segWF g) :
    (markdown_to_blocks_loop (segs.flatMap segLines)).length
      = (segs.filter segIsBlock).length := by
  induction segs with
  | nil => simp [loop_nil]
  | cons g gs ih =>
    have hg := h g (List.mem_cons_self g gs)
    have hgs := fun x hx => h x (List.mem_cons_of_mem g hx)
    rw [List.flatMap_cons]
    cases g with
    | blank l =>
      obtain ⟨hb, _⟩ := hg
      show (markdown_to_blocks_loop (l :: gs.flatMap segLines)).length = _
      rw [loop_blank l _ hb, ih hgs]
      simp [List.filter, segIsBlock]
    | simple l =>
      obtain ⟨hne, hnf, _⟩ := hg
      obtain ⟨b, hb⟩ := loop_simple_line l (gs.flatMap segLines) hne hnf
      show (markdown_to_blocks_loop (l :: gs.flatMap segLines)).length = _
      rw [hb]
      simp only [List.length_cons, ih hgs]
      simp [List.filter, segIsBlock]
    | fence o body close =>
      obtain ⟨ho, _, hbody, hclose, _⟩ := hg
      have hshape : segLines (.fence o body close) ++ gs.flatMap segLines
          = o :: (body ++ close :: gs.flatMap segLines) := by
        simp [segLines]
      rw [hshape, loop_fence_closed o body close _ ho
        (fun x hx => (hbody x hx).1) hclose]
      simp only [List.length_cons, ih hgs]
      simp [List.filter, segIsBlock]

theorem noNL_segLines {segs : List Seg} (h : ∀ g ∈ segs, segWF g) :
    ∀ l ∈ segs.flatMap segLines, '\n' ∉ l := by
  intro l hl
  obtain ⟨g, hg, hlg⟩ := List.mem_flatMap.mp hl
  have := h g hg
  cases g with
  | blank x =>
    have hx : l = x := by simpa [segLines] using hlg
    rw [hx]
    exact this.2
  | simple x =>
    have hx : l = x := by simpa [segLines] using hlg
    rw [hx]
    exact this.2.2
  | fence o body close =>
    simp only [segLines, List.mem_cons, List.mem_append,
      List.mem_singleton] at hlg
    rcases hlg with (rfl | hlg) | (rfl | habs)
    · exact this.2.1
    · exact (this.2.2.1 l hlg).2
    · exact this.2.2.2.2
    · exact absurd habs (List.not_mem_nil l)

/-- String-level block count for a body assembled from well-formed
segments. -/
theorem markdown_to_blocks_count (segs : List Seg) (h : ∀ g ∈ segs, segWF g) :
    (markdown_to_blocks (joinLines (segs.flatMap segLines))).length
      = (segs.filter segIsBlock).length := by
  cases hsegs : segs with
  | nil =>
    show (markdown_to_blocks_loop (splitLines (joinLines [])) ).length = _
    rw [show joinLines ([] : List Str) = [] from rfl, splitLines_nil,
      loop_blank [] [] rfl, loop_nil]
    rfl
  | cons g gs =>
    rw [← hsegs]
    have hlines_ne : segs.flatMap segLines ≠ [] := by
      rw [hsegs, List.flatMap_cons]
      cases g <;> simp [segLines]
    show (markdown_to_blocks_loop (splitLines (joinLines _))).length = _
    rw [splitLines_joinLines_id _ (noNL_segLines h) hlines_ne]
    exact loop_segs segs h

/-- A line `'#' * n + ' ' + t` with `1 ≤ n ≤ 3` parses as a heading of
level `n`. -/
theorem loop_heading_line (n : Nat) (t : Str)
    (h1 : 1 ≤ n) (h3 : n ≤ 3) (htne : t ≠ []) (hts : pyStrip t = t)
    (rest : List Str) :
    markdown_to_blocks_loop ((List.replicate n '#' ++ ' ' :: t) :: rest)
      = create_heading_block t n :: markdown_to_blocks_loop rest := by
  obtain ⟨m, rfl⟩ : ∃ m, n = m + 1 := ⟨n - 1, by omega⟩
  have hshape : List.replicate (m + 1) '#' ++ ' ' :: t
      = '#' :: ((List.replicate m '#' ++ [' ']) ++ t) := by
    simp [List.replicate_succ]
  have hstrip : pyStrip (List.replicate (m + 1) '#' ++ ' ' :: t)
      = List.replicate (m + 1) '#' ++ ' ' :: t := by
    rw [hshape]
    exact pyStrip_self_render _ _ (by decide) hts htne
  have hmatch : heading_match (pyStrip (List.replicate (m + 1) '#' ++ ' ' :: t))
      = some (m + 1, t) := by
    rw [hstrip]
    exact heading_match_render (m + 1) t h1 h3 htne (pyStrip_self_head hts)
  rw [loop_heading _ rest (m + 1) t hmatch (by rw [hstrip]; simp)]

/-- A line `'#' * n + ' ' + t` with `n ≥ 4` does not match the heading
regex and parses as a paragraph instead. -/
theorem loop_hashes_paragraph (n : Nat) (t : Str)
    (h4 : 4 ≤ n) (htne : t ≠ []) (hts : pyStrip t = t)
    (rest : List Str) :
    markdown_to_blocks_loop ((List.replicate n '#' ++ ' ' :: t) :: rest)
      = create_paragraph_block (List.replicate n '#' ++ ' ' :: t) ::
        markdown_to_blocks_loop rest := by
  obtain ⟨m, rfl⟩ : ∃ m, n = m + 1 := ⟨n - 1, by omega⟩
  have hshape : List.replicate (m + 1) '#' ++ ' ' :: t
      = '#' :: ((List.replicate m '#' ++ [' ']) ++ t) := by
    simp [List.replicate_succ]
  have hstrip : pyStrip (List.replicate (m + 1) '#' ++ ' ' :: t)
      = List.replicate (m + 1) '#' ++ ' ' :: t := by
    rw [hshape]
    exact pyStrip_self_render _ _ (by decide) hts htne
  have hhd : (List.replicate (m + 1) '#' ++ ' ' :: t).head? = some '#' := by
    rw [hshape]
    rfl
  have htw : (List.replicate (m + 1) '#' ++ ' ' :: t).takeWhile (· == '#')
      = List.replicate (m + 1) '#' := by
    rw [takeWhile_append_all _ (fun x hx => by
      rw [List.eq_of_mem_replicate hx]; rfl)]
    rw [List.takeWhile_cons]
    have hsp : ((' ' : Char) == '#') = false := by decide
    rw [hsp]
    simp
  have hm : heading_match (List.replicate (m + 1) '#' ++ ' ' :: t) = none := by
    simp only [heading_match, htw, List.length_replicate]
    have hn0 : ¬ (m + 1) = 0 := by omega
    have hn3 : 3 < m + 1 := by omega
    rw [if_neg hn0, if_pos hn3]
  rw [loop_paragraph _ rest (by rw [hstrip]; simp)
    (by rw [hstrip]; exact hm)
    (by rw [hstrip]; exact isPrefixOf_false_of_head hhd (by decide))
    (by rw [hstrip]; exact isPrefixOf_false_of_head hhd (by decide))
    (by rw [hstrip]; exact isPrefixOf_false_of_head hhd (by decide))
    (by rw [hstrip]; exact numbered_match_none_of_head hhd (by decide))
    (by rw [hstrip]; exact isPrefixOf_false_of_head hhd (by decide)), hstrip]

theorem natToDigits_ne_nil (n : Nat) : natToDigits n ≠ [] := by
  unfold natToDigits natDigitsAux
  by_cases h : n < 10
  · rw [if_pos h]
    simp
  · rw [if_neg h]
    simp

/-- The shape invariant of a remote block object: a `type` field naming
the single payload key, the payload's `rich_text` being the canonical
one-element text array carrying the source text, and a `language` field
for code blocks. -/
def block_shape_ok (b : JVal) : Prop :=
  ∃ t payload text,
    b = .obj [(ofStr "type", .str t), (t, .obj payload)] ∧
    jlookup payload (ofStr "rich_text") = some (rich_text_arr text) ∧
    (t = ofStr "code" →
      ∃ lang, jlookup payload (ofStr "language") = some (.str lang))

theorem block_shape_ok_of_WF (b : JVal) (wf : WFBlock b) : block_shape_ok b := by
  cases wf with
  | heading n t _ _ _ _ _ =>
    refine ⟨_, _, t, rfl, by simp [jlookup], ?_⟩
    intro hc
    exfalso
    have := congrArg List.length hc
    have hne := natToDigits_ne_nil (if n > 3 then 3 else n)
    simp only [ofStr, List.length_append] at this
    cases hd : natToDigits (if n > 3 then 3 else n) with
    | nil => exact hne hd
    | cons x xs =>
      rw [hd] at this
      simp at this
      omega
  | para t _ _ _ _ _ _ _ _ _ =>
    refine ⟨_, _, t, rfl, by simp [jlookup], ?_⟩
    intro hc
    exact absurd hc (by decide)
  | code text lang _ _ _ =>
    refine ⟨_, _, text, rfl, by simp [jlookup, ofStr], ?_⟩
    intro _
    exact ⟨lang, by simp [jlookup, ofStr]⟩
  | quote t _ _ _ =>
    refine ⟨_, _, t, rfl, by simp [jlookup], ?_⟩
    intro hc
    exact absurd hc (by decide)
  | bullet t _ _ _ =>
    refine ⟨_, _, t, rfl, by simp [jlookup], ?_⟩
    intro hc
    exact absurd hc (by decide)
  | numbered t _ _ _ =>
    refine ⟨_, _, t, rfl, by simp [jlookup], ?_⟩
    intro hc
    exact absurd hc (by decide)

/-! ## Sync engine (`sync_engine.py`) -/

/-- A Python `datetime` value: a totally ordered timestamp plus its
timezone-awareness flag (`datetime.fromtimestamp` and
`datetime.now().isoformat()` produce naive values; an ISO string with an
offset parses to an aware value).  Comparing a naive with an aware value
raises `TypeError`. -/
structure PyTime where
  t : Int
  aware : Bool

/-- Python `a > b` on datetimes: an exception if exactly one side is
timezone-aware. -/
def pyGtD (a b : PyTime) : Except Str Bool :=
  if a.aware = b.aware then .ok (decide (b.t < a.t))
  else .error (ofStr "cannot compare offset-naive and offset-aware datetimes")

/-- `notion_last_edited.replace("Z", "+00:00")`. -/
def zReplace (s : Str) : Str :=
  s.flatMap (fun c => if c = 'Z' then ofStr "+00:00" else [c])

/-- Python truthiness of a JSON-like value (`if not last_synced`). -/
def jTruthy : JVal → Bool
  | .str s => !s.isEmpty
  | .arr xs => !xs.isEmpty
  | .obj fs => !fs.isEmpty

def exceptOfOption {α : Type} (o : Option α) (msg : Str) : Except Str α :=
  match o with
  | some a => .ok a
  | none => .error msg

/-- The collaborators `SyncEngine.detect_conflicts` interacts with:
frontmatter parsing, ISO-8601 parsing (the external `datetime` library,
abstracted as a partial map into `PyTime`), the remote page fetch, and the
file modification time. -/
structure ConflictEnv where
  /-- `parse_file` followed by `metadata.get("last_synced")`; the error
  case is a raised parse/IO failure, `none` an absent key. -/
  parse_file : Except Str (Option JVal)
  /-- `datetime.fromisoformat`; `none` models a raised `ValueError`. -/
  fromisoformat : Str → Option PyTime
  /-- `notion_client.get_page`, returning the page object. -/
  get_page : Except Str JVal
  /-- `os.path.getmtime` (seconds); its `datetime.fromtimestamp` image is
  naive. -/
  getmtime : Except Str Int

/-- The `try` body of `SyncEngine.detect_conflicts`, with each raising
call written as an explicit `match` (an `error` propagates to the
handler). -/
def detect_conflicts_checked (env : ConflictEnv) : Except Str Bool :=
  match env.parse_file with
  | .error e => .error e
  | .ok none => .ok false
  | .ok (some v) =>
    if jTruthy v = false then .ok false
    else
      match v with
      | .str s =>
        match env.fromisoformat s with
        | none => .error (ofStr "Invalid isoformat string")
        | some last_synced_dt =>
          match env.get_page with
          | .error e => .error e
          | .ok page =>
            match page with
            | .obj fs =>
              match jlookup fs (ofStr "last_edited_time") with
              | some (.str notion_last_edited) =>
                match env.fromisoformat (zReplace notion_last_edited) with
                | none => .error (ofStr "Invalid isoformat string")
                | some notion_last_edited_dt =>
                  match env.getmtime with
                  | .error e => .error e
                  | .ok file_last_modified =>
                    match pyGtD notion_last_edited_dt last_synced_dt with
                    | .error e => .error e
                    | .ok notion_modified =>
                      match pyGtD ⟨file_last_modified, false⟩ last_synced_dt with
                      | .error e => .error e
                      | .ok file_modified =>
                        .ok (notion_modified && file_modified)
              | _ => .error (ofStr "last_edited_time is not a string")
            | _ => .error (ofStr "page is not an object")
      | _ => .error (ofStr "fromisoformat: argument must be str")

/-- `SyncEngine.detect_conflicts`: the blanket `except` resolves any
failure to `True` (assume conflict). -/
def detect_conflicts (env : ConflictEnv) : Bool :=
  match detect_conflicts_checked env with
  | .ok b => b
  | .error _ => true

/-- `MarkdownParser.extract_title` on the split lines: first line starting
with `"# "` yields its stripped remainder. -/
def extract_title_lines : List Str → Option Str
  | [] => none
  | l :: rest =>
    if (ofStr "# ").isPrefixOf l then some (pyStrip (l.drop 2))
    else extract_title_lines rest

/-- `MarkdownParser.extract_title`. -/
def extract_title (content : Str) : Option Str :=
  extract_title_lines (splitLines content)

/-- `os.path.basename` (POSIX separator). -/
def basename (p : Str) : Str :=
  (p.reverse.takeWhile (fun c => !(c == '/'))).reverse

/-- `os.path.splitext`, simplified to a split at the last dot (filenames
handled here never consist solely of leading dots). -/
def splitext (p : Str) : Str × Str :=
  if p.contains '.' then
    let rev := p.reverse
    let extRev := rev.takeWhile (fun c => !(c == '.'))
    let nameRev := (rev.dropWhile (fun c => !(c == '.'))).drop 1
    (nameRev.reverse, '.' :: extRev.reverse)
  else (p, [])

/-- `os.path.splitext(os.path.basename(fp))[0]`. -/
def file_stem (p : Str) : Str := (splitext (basename p)).1

/-- Python `str(value)` on a header scalar.  String values are kept
verbatim; the printed form of list/dict values is abbreviated (no checked
claim depends on it). -/
def py_str : JVal → Str
  | .str s => s
  | .arr _ => ofStr "[...]"
  | .obj _ => ofStr "{...}"

/-- The title-resolution cascade of `sync_file_to_notion` (lines 62-69):
header `title` if truthy, else the first level-1 heading of the body,
else the filename stem.  Header titles are modelled as string scalars. -/
def resolve_title (metadata : List (Str × JVal)) (raw_content : Str)
    (file_path : Str) : Str :=
  let fallback :=
    match extract_title raw_content with
    | some t => if t.isEmpty then file_stem file_path else t
    | none => file_stem file_path
  match jlookup metadata (ofStr "title") with
  | some (.str t) => if t.isEmpty then fallback else t
  | _ => fallback

/-- The dash formatting of a 32-character parent id (lines 85-86). -/
def format_parent_id (p : Str) : Str :=
  if p.length = 32 ∧ ¬ p.contains '-' then
    p.take 8 ++ '-' :: ((p.drop 8).take 4 ++ '-' :: ((p.drop 12).take 4
      ++ '-' :: ((p.drop 16).take 4 ++ '-' :: p.drop 20)))
  else p

/-- The `title` property sent on page creation. -/
def title_property (title : Str) : JVal :=
  .obj [(ofStr "title", .arr [.obj
    [(ofStr "type", .str (ofStr "text")),
     (ofStr "text", .obj [(ofStr "content", .str title)])]])]

/-- The properties dictionary built in the CREATE path: the title, and —
when the parent resolves as a database — a rich-text property per header
key other than `title`/`notion_page_id`/`last_synced`. -/
def build_properties (metadata : List (Str × JVal)) (title : Str)
    (is_database : Bool) : List (Str × JVal) :=
  let base := [(ofStr "title", title_property title)]
  if is_database then
    base ++ (metadata.filter (fun kv =>
        !(kv.1 = ofStr "title" ∨ kv.1 = ofStr "notion_page_id"
          ∨ kv.1 = ofStr "last_synced" : Bool))).map
      (fun kv => (kv.1, JVal.obj [(ofStr "rich_text", .arr [.obj
        [(ofStr "type", .str (ofStr "text")),
         (ofStr "text", .obj [(ofStr "content", .str (py_str kv.2))])]])]))
  else base

/-- The collaborators of `SyncEngine.sync_file_to_notion`, as oracles; an
`Except.error` models a raised exception in the corresponding call. -/
structure PushEnv where
  file_path : Str
  /-- whether `config.get("notion.token")` was truthy at construction. -/
  token_configured : Bool
  /-- `markdown_parser.parse_file`: header and raw body (the HTML render
  is unused by the push path). -/
  parse_file : Except Str (List (Str × JVal) × Str)
  /-- whether `notion_client.get_page pid` succeeds (its raised failure is
  swallowed by lines 54-60). -/
  get_page_ok : Str → Bool
  /-- `config.get("notion.parent_page_id")`. -/
  parent_page_id : Option Str
  /-- whether `client.databases.retrieve(parent_id)` succeeds. -/
  db_retrieve_ok : Str → Bool
  /-- `notion_client.create_page`, returning the new page id. -/
  create_page : Str → Str → List (Str × JVal) → Except Str Str
  /-- `notion_client.update_page_blocks`. -/
  update_page_blocks : Str → List JVal → Except Str Unit
  /-- `markdown_parser.update_frontmatter` on this file. -/
  update_frontmatter_result : Except Str Unit

/-- The `try` body of `SyncEngine.sync_file_to_notion`, raising calls
written as explicit matches (an `error` propagates to the handler). -/
def sync_file_to_notion_body (env : PushEnv) : Except Str (Bool × Str) :=
  match env.parse_file with
  | .error e => .error e
  | .ok (metadata, raw_content) =>
    -- lines 50-61: page_exists is true iff the stored id is truthy and
    -- `get_page` succeeds; a raised `get_page` is swallowed here
    let pid_exists : Option Str :=
      match jlookup metadata (ofStr "notion_page_id") with
      | some (.str pid) =>
        if pid ≠ [] ∧ env.get_page_ok pid then some pid else none
      | _ => none
    let title := resolve_title metadata raw_content env.file_path
    let blocks := markdown_to_blocks raw_content
    match pid_exists with
    | some pid =>
      match env.update_page_blocks pid blocks with
      | .error e => .error e
      | .ok _ =>
        -- lines 147-150: update last_synced in frontmatter
        match env.update_frontmatter_result with
        | .error e => .error e
        | .ok _ => .ok (true, ofStr "Updated Notion page: " ++ title)
    | none =>
      match env.parent_page_id with
      | none => .ok (false, ofStr "Parent page ID not configured")
      | some parent0 =>
        if parent0.isEmpty then
          .ok (false, ofStr "Parent page ID not configured")
        else
          let parent_id := format_parent_id parent0
          let properties :=
            build_properties metadata title (env.db_retrieve_ok parent_id)
          match env.create_page parent_id title properties with
          | .error e => .error e
          | .ok new_id =>
            match env.update_page_blocks new_id blocks with
            | .error e => .error e
            | .ok _ =>
              -- lines 136-142: write notion_page_id and last_synced
              match env.update_frontmatter_result with
              | .error e => .error e
              | .ok _ =>
                -- lines 147-150: update last_synced in frontmatter
                match env.update_frontmatter_result with
                | .error e => .error e
                | .ok _ =>
                  .ok (true, ofStr "Created new Notion page: " ++ title)

/-- `SyncEngine.sync_file_to_notion`: token guard, then the blanket
`except` mapping any raised failure to `(False, message)`. -/
def sync_file_to_notion (env : PushEnv) : Bool × Str :=
  if env.token_configured = false then
    (false, ofStr "Notion API token not configured")
  else
    match sync_file_to_notion_body env with
    | .ok r => r
    | .error e => (false, ofStr "Error syncing file to Notion: " ++ e)

/-- The chained lookups of line 176:
`page.get("properties", {}).get("title", {}).get("title", [{}])[0]
  .get("text", {}).get("content", "Untitled")`.
A non-dictionary receiver of `.get`, or indexing an empty list, raises. -/
def get_page_title (page : JVal) : Except Str Str :=
  match page with
  | .obj pf =>
    let props := match jlookup pf (ofStr "properties") with
      | some v => v
      | none => .obj []
    match props with
    | .obj prf =>
      let tprop := match jlookup prf (ofStr "title") with
        | some v => v
        | none => .obj []
      match tprop with
      | .obj tf =>
        let tarr := match jlookup tf (ofStr "title") with
          | some v => v
          | none => .arr [.obj []]
        match tarr with
        | .arr (item :: _) =>
          match item with
          | .obj itf =>
            let titem := match jlookup itf (ofStr "text") with
              | some v => v
              | none => .obj []
            match titem with
            | .obj ttf =>
              match jlookup ttf (ofStr "content") with
              | some (.str s) => .ok s
              | some _ => .error (ofStr "title content is not a string")
              | none => .ok (ofStr "Untitled")
            | _ => .error (ofStr "text value is not an object")
          | _ => .error (ofStr "title item is not an object")
        | .arr [] => .error (ofStr "list index out of range")
        | _ => .error (ofStr "title property is not a list")
      | _ => .error (ofStr "title property is not an object")
    | _ => .error (ofStr "properties is not an object")
  | _ => .error (ofStr "page is not an object")

/-- Lines 192-199: extract flat rich-text properties other than the title
into header entries. -/
def extract_rich_props : List (Str × JVal) → Except Str (List (Str × JVal))
  | [] => .ok []
  | (k, v) :: rest => do
    let tail ← extract_rich_props rest
    if k = ofStr "title" then
      return tail
    else
      match v with
      | .obj vf =>
        -- `value.get("type") == "rich_text"`: comparison with a missing or
        -- non-string value is simply False
        if (match jlookup vf (ofStr "type") with
            | some (.str ts) => ts = ofStr "rich_text"
            | _ => False : Bool) then
          let rt := match jlookup vf (ofStr "rich_text") with
            | some x => x
            | none => .arr []
          match rt with
          | .arr [] => return tail
          | .arr (item :: _) =>
            match item with
            | .obj itf =>
              let titem := match jlookup itf (ofStr "text") with
                | some x => x
                | none => .obj []
              match titem with
              | .obj ttf =>
                match jlookup ttf (ofStr "content") with
                | some (.str s) => return (k, JVal.str s) :: tail
                | some _ => .error (ofStr "content is not a string")
                | none => return (k, JVal.str []) :: tail
              | _ => .error (ofStr "text value is not an object")
            | _ => .error (ofStr "rich_text item is not an object")
          | nonList =>
            if jTruthy nonList then .error (ofStr "indexing a non-list")
            else return tail
        else return tail
      | _ => .error (ofStr "property value is not an object")

/-- `os.path.join` (POSIX, relative second component). -/
def py_path_join (a b : Str) : Str :=
  if a.isEmpty then b
  else if a.getLast? = some '/' then a ++ b
  else a ++ '/' :: b

/-- The title sanitization shared by `sync_notion_to_file` (lines 217-218)
and the CLI pull commands: keep alphanumerics/space/hyphen/underscore,
replace spaces with hyphens, lowercase.  `isalnum` is modelled on its
ASCII fragment. -/
def sanitize_title (title : Str) : Str :=
  ((title.filter (fun c => c.isAlpha || c.isDigit || c == ' ' || c == '-'
      || c == '_')).map
    (fun c => if c = ' ' then '-' else c)).map Char.toLower

/-- The collaborators of `SyncEngine.sync_notion_to_file`. -/
structure PullEnv where
  token_configured : Bool
  notion_page_id : Str
  file_path : Option Str
  /-- `notion_client.get_page`. -/
  get_page : Except Str JVal
  /-- `notion_client.get_page_blocks`. -/
  get_page_blocks : Except Str (List JVal)
  /-- `config.get("directories.markdown_root", "./docs")`. -/
  markdown_root : Str
  /-- `os.makedirs(markdown_root, exist_ok=True)`. -/
  makedirs_result : Except Str Unit
  /-- `os.path.exists`. -/
  file_exists : Str → Bool
  /-- `markdown_parser.create_markdown_with_frontmatter`
  (path, header, body). -/
  write_file : Str → List (Str × JVal) → Str → Except Str Unit
  /-- `datetime.now().isoformat()`. -/
  now_iso : Str

/-- The `try` body of `SyncEngine.sync_notion_to_file`, raising calls
written as explicit matches. -/
def sync_notion_to_file_body (env : PullEnv) : Except Str (Bool × Str) :=
  match env.get_page with
  | .error e => .error e
  | .ok page =>
    match get_page_title page with
    | .error e => .error e
    | .ok title =>
      match env.get_page_blocks with
      | .error e => .error e
      | .ok blocks =>
        match blocks_to_markdown blocks with
        | none => .error (ofStr "blocks_to_markdown failed")
        | some markdown_content =>
          match (match page with
            | .obj pf =>
              match jlookup pf (ofStr "properties") with
              | some (.obj fields) => Except.ok fields
              | none => Except.ok ([] : List (Str × JVal))
              | some _ => Except.error (ofStr "properties is not an object")
            | _ => Except.error (ofStr "page is not an object")) with
          | .error e => .error e
          | .ok props_fields =>
            match extract_rich_props props_fields with
            | .error e => .error e
            | .ok extra =>
              let metadata :=
                [(ofStr "title", JVal.str title),
                 (ofStr "notion_page_id", JVal.str env.notion_page_id),
                 (ofStr "last_synced", JVal.str env.now_iso)] ++ extra
              match env.file_path with
              | some fp =>
                match env.write_file fp metadata markdown_content with
                | .error e => .error e
                | .ok _ =>
                  if env.file_exists fp then
                    .ok (true, ofStr "Updated markdown file: " ++ fp)
                  else
                    .ok (true, ofStr "Created new markdown file: " ++ fp)
              | none =>
                match env.makedirs_result with
                | .error e => .error e
                | .ok _ =>
                  -- lines 216-220: sanitized title, no fallback for an
                  -- empty result and no collision handling (this branch
                  -- has no callers; the CLI performs both before passing
                  -- an explicit path)
                  let filename := sanitize_title title
                  let fp :=
                    py_path_join env.markdown_root (filename ++ ofStr ".md")
                  match env.write_file fp metadata markdown_content with
                  | .error e => .error e
                  | .ok _ =>
                    .ok (true, ofStr "Created new markdown file: " ++ fp)

/-- `SyncEngine.sync_notion_to_file`. -/
def sync_notion_to_file (env : PullEnv) : Bool × Str :=
  if env.token_configured = false then
    (false, ofStr "Notion API token not configured")
  else
    match sync_notion_to_file_body env with
    | .ok r => r
    | .error e => (false, ofStr "Error syncing Notion page to file: " ++ e)

/-! ## Frontmatter update (`markdown_parser.py`) -/

/-- Python `post[key] = value` on an ordered dictionary: overwrite the
entry in place if the key exists (keys of a dictionary are unique), else
append at the end. -/
def dict_set : List (Str × JVal) → Str → JVal → List (Str × JVal)
  | [], k, v => [(k, v)]
  | (k', v') :: rest, k, v =>
    if k' = k then (k, v) :: rest
    else (k', v') :: dict_set rest k v

/-- The `for key, value in new_metadata.items(): post[key] = value` loop
of `MarkdownParser.update_frontmatter`. -/
def apply_updates (h : List (Str × JVal)) (updates : List (Str × JVal)) :
    List (Str × JVal) :=
  updates.foldl (fun acc kv => dict_set acc kv.1 kv.2) h

/-- `MarkdownParser.update_frontmatter` on a loaded document
(header, body); the frontmatter file round-trip itself is the external
`python-frontmatter` library. -/
def update_frontmatter (doc : List (Str × JVal) × Str)
    (new_metadata : List (Str × JVal)) : List (Str × JVal) × Str :=
  (apply_updates doc.1 new_metadata, doc.2)

theorem jlookup_dict_set_self (h : List (Str × JVal)) (k : Str) (v : JVal) :
    jlookup (dict_set h k v) k = some v := by
  induction h with
  | nil => simp [dict_set, jlookup]
  | cons p rest ih =>
    obtain ⟨k', v'⟩ := p
    by_cases hk : k' = k
    · simp [dict_set, hk, jlookup]
    · simp only [dict_set, if_neg hk]
      show (if k' = k then some v' else jlookup (dict_set rest k v) k) = some v
      rw [if_neg hk]
      exact ih

theorem jlookup_dict_set_ne (h : List (Str × JVal)) (k k' : Str) (v : JVal)
    (hne : k' ≠ k) : jlookup (dict_set h k' v) k = jlookup h k := by
  induction h with
  | nil => simp [dict_set, jlookup, hne]
  | cons p rest ih =>
    obtain ⟨k'', v''⟩ := p
    by_cases hk : k'' = k'
    · subst hk
      simp [dict_set, jlookup, hne]
    · simp only [dict_set, if_neg hk, jlookup]
      by_cases hkk : k'' = k
      · rw [if_pos hkk, if_pos hkk]
      · rw [if_neg hkk, if_neg hkk]
        exact ih

theorem jlookup_apply_updates_not_mem (h updates : List (Str × JVal))
    (k : Str) (hk : ∀ kv ∈ updates, kv.1 ≠ k) :
    jlookup (apply_updates h updates) k = jlookup h k := by
  induction updates generalizing h with
  | nil => rfl
  | cons kv rest ih =>
    unfold apply_updates
    rw [List.foldl_cons]
    have hrec := ih (dict_set h kv.1 kv.2)
      (fun x hx => hk x (List.mem_cons_of_mem kv hx))
    unfold apply_updates at hrec
    rw [hrec, jlookup_dict_set_ne h k kv.1 kv.2
      (hk kv (List.mem_cons_self kv rest))]

theorem jlookup_apply_updates_mem (h updates : List (Str × JVal))
    (k : Str) (v : JVal) (hmem : (k, v) ∈ updates)
    (hnodup : (updates.map Prod.fst).Nodup) :
    jlookup (apply_updates h updates) k = some v := by
  induction updates generalizing h with
  | nil => simp at hmem
  | cons kv rest ih =>
    unfold apply_updates
    rw [List.foldl_cons]
    rcases List.mem_cons.mp hmem with heq | hmem2
    · subst heq
      simp only [List.map_cons, List.nodup_cons] at hnodup
      have hrest : ∀ x ∈ rest, x.1 ≠ k := by
        intro x hx hh
        exact hnodup.1 (hh ▸ List.mem_map_of_mem Prod.fst hx)
      have hrec := jlookup_apply_updates_not_mem (dict_set h k v) rest k hrest
      unfold apply_updates at hrec
      rw [hrec, jlookup_dict_set_self]
    · simp only [List.map_cons, List.nodup_cons] at hnodup
      exact ih (dict_set h kv.1 kv.2) hmem2 hnodup.2

/-! ## Pulled-file name derivation and deduplication (`cli.py`,
`pull_workspace` / `pull-children`, lines 177-191 and 278-292) -/

/-- `f"untitled-{page_id[:8]}"` fallback and sanitized name. -/
def derive_filename (title page_id : Str) : Str :=
  let filename := sanitize_title title
  if filename.isEmpty then ofStr "untitled-" ++ page_id.take 8
  else filename

/-- The candidate path `f"{name}-{counter}{ext}"` tried for a duplicate
filename. -/
def dup_candidate (name ext : Str) (counter : Nat) : Str :=
  name ++ '-' :: (natToDigits counter ++ ext)

/-- The `while os.path.exists(file_path)` loop; the filesystem is modelled
as the finite list of existing paths, and the fuel below always suffices
(`dedup_loop_not_mem`). -/
def dedup_loop (existing : List Str) (name ext : Str) :
    Nat → Nat → Str → Str
  | 0, _, fp => fp
  | fuel + 1, counter, fp =>
    if fp ∈ existing then
      dedup_loop existing name ext fuel (counter + 1) (dup_candidate name ext counter)
    else fp

/-- Lines 183-191: the path derived from the sanitized title, suffixed
`-1`, `-2`, … while it collides with an existing file. -/
def unique_path (existing : List Str) (orig : Str) : Str :=
  let ne := splitext orig
  dedup_loop existing ne.1 ne.2 (existing.length + 1) 1 orig

theorem dup_candidate_injective (name ext : Str) {j k : Nat}
    (h : dup_candidate name ext j = dup_candidate name ext k) : j = k := by
  unfold dup_candidate at h
  have h1 := List.append_cancel_left h
  have h2 : natToDigits j ++ ext = natToDigits k ++ ext := by
    injection h1
  exact natToDigits_injective (List.append_cancel_right h2)

theorem dedup_loop_fix (existing : List Str) (name ext : Str)
    (fuel counter : Nat) (fp : Str) (h : fp ∉ existing) :
    dedup_loop existing name ext fuel counter fp = fp := by
  cases fuel with
  | zero => rfl
  | succ f => simp [dedup_loop, h]

theorem dedup_loop_escapes (existing : List Str) (name ext : Str) :
    ∀ (fuel counter : Nat) (fp : Str),
    (fp ∉ existing ∨ ∃ k, counter ≤ k ∧ k < counter + fuel ∧
      dup_candidate name ext k ∉ existing) →
    dedup_loop existing name ext fuel counter fp ∉ existing := by
  intro fuel
  induction fuel with
  | zero =>
    intro counter fp h
    rcases h with h | ⟨k, hk1, hk2, _⟩
    · exact h
    · omega
  | succ f ih =>
    intro counter fp h
    by_cases hfp : fp ∈ existing
    · simp only [dedup_loop, if_pos hfp]
      apply ih
      rcases h with h | ⟨k, hk1, hk2, hk3⟩
      · exact absurd hfp h
      · by_cases hkc : k = counter
        · left
          rw [← hkc]
          exact hk3
        · right
          exact ⟨k, by omega, by omega, hk3⟩
    · rw [dedup_loop_fix existing name ext _ _ _ hfp]
      exact hfp

theorem exists_free_candidate (existing : List Str) (name ext : Str) :
    ∃ k, 1 ≤ k ∧ k < 1 + (existing.length + 1) ∧
      dup_candidate name ext k ∉ existing := by
  by_contra hall
  push_neg at hall
  set L := (List.range' 1 (existing.length + 1)).map (dup_candidate name ext)
    with hL
  have hnodup : L.Nodup := by
    rw [hL]
    exact (List.nodup_range' 1 (existing.length + 1)).map
      (fun a b hab => dup_candidate_injective name ext hab)
  have hsub : L ⊆ existing := by
    intro x hx
    rw [hL] at hx
    obtain ⟨k, hk, rfl⟩ := List.mem_map.mp hx
    rw [List.mem_range'_1] at hk
    exact hall k hk.1 (by omega)
  have hlen : L.length = existing.length + 1 := by
    rw [hL]
    simp
  have hc1 : L.toFinset.card = L.length := List.toFinset_card_of_nodup hnodup
  have hsubf : L.toFinset ⊆ existing.toFinset := by
    intro x hx
    rw [List.mem_toFinset] at hx ⊢
    exact hsub hx
  have hc2 := existing.toFinset_card_le
  have := Finset.card_le_card hsubf
  omega

/-- The deduplication loop's result never collides with an existing
path. -/
theorem unique_path_not_mem (existing : List Str) (orig : Str) :
    unique_path existing orig ∉ existing := by
  unfold unique_path
  apply dedup_loop_escapes
  obtain ⟨k, hk1, hk2, hk3⟩ :=
    exists_free_candidate existing (splitext orig).1 (splitext orig).2
  exact Or.inr ⟨k, hk1, hk2, hk3⟩

/-- A path that does not collide is used as is. -/
theorem unique_path_id (existing : List Str) (orig : Str)
    (h : orig ∉ existing) : unique_path existing orig = orig :=
  dedup_loop_fix existing _ _ _ _ _ h

/-- On collision, the result is the first free candidate: `-k` for the
least `k ≥ 1` whose candidate is free. -/
theorem unique_path_first_free (existing : List Str) (orig : Str)
    (h : orig ∈ existing) :
    ∃ k, 1 ≤ k ∧
      unique_path existing orig = dup_candidate (splitext orig).1 (splitext orig).2 k ∧
      dup_candidate (splitext orig).1 (splitext orig).2 k ∉ existing ∧
      (∀ j, 1 ≤ j → j < k →
        dup_candidate (splitext orig).1 (splitext orig).2 j ∈ existing) := by
  have main : ∀ (fuel counter : Nat) (fp : Str),
      (∃ k, counter ≤ k ∧ k < counter + fuel ∧
        dup_candidate (splitext orig).1 (splitext orig).2 k ∉ existing) →
      fp ∈ existing →
      ∃ k, counter ≤ k ∧
        dedup_loop existing (splitext orig).1 (splitext orig).2 fuel counter fp
          = dup_candidate (splitext orig).1 (splitext orig).2 k ∧
        dup_candidate (splitext orig).1 (splitext orig).2 k ∉ existing ∧
        (∀ j, counter ≤ j → j < k →
          dup_candidate (splitext orig).1 (splitext orig).2 j ∈ existing) := by
    intro fuel
    induction fuel with
    | zero =>
      intro counter fp hex _
      obtain ⟨k, hk1, hk2, _⟩ := hex
      omega
    | succ f ih =>
      intro counter fp hex hfp
      simp only [dedup_loop, if_pos hfp]
      by_cases hcand : dup_candidate (splitext orig).1 (splitext orig).2 counter ∈ existing
      · obtain ⟨k, hk1, hk2, hk3⟩ := hex
        have hkc : k ≠ counter := by
          intro hh
          rw [hh] at hk3
          exact hk3 hcand
        obtain ⟨k', hk'1, hk'2, hk'3, hk'4⟩ :=
          ih (counter + 1) _ ⟨k, by omega, by omega, hk3⟩ hcand
        refine ⟨k', by omega, hk'2, hk'3, ?_⟩
        intro j hj1 hj2
        by_cases hjc : j = counter
        · rw [hjc]
          exact hcand
        · exact hk'4 j (by omega) hj2
      · refine ⟨counter, le_refl _, ?_, hcand, ?_⟩
        · exact dedup_loop_fix existing _ _ _ _ _ hcand
        · intro j hj1 hj2
          omega
  obtain ⟨k, hk1, hk2, hk3⟩ :=
    exists_free_candidate existing (splitext orig).1 (splitext orig).2
  exact main (existing.length + 1) 1 orig ⟨k, hk1, hk2, hk3⟩ h

/-! ## Claim theorems -/

/-- Observer used to tell block kinds apart: the string under the `type`
key. -/
def block_type_str (b : JVal) : Str :=
  match b with
  | .obj f =>
    match jlookup f (ofStr "type") with
    | some (.str s) => s
    | _ => []
  | _ => []

/-- C2: for every input body `b`, one round trip is structurally
idempotent — rendering `toBlocks(b)` back to text with `toDocument` and
parsing again with `toBlocks` yields exactly the block sequence of the
first `toBlocks(b)` (and the rendering step itself succeeds). -/
theorem C2_roundtrip_structural_idempotence :
    ∀ b : Str, ∃ d, blocks_to_markdown (markdown_to_blocks b) = some d ∧
      markdown_to_blocks d = markdown_to_blocks b :=
  markdown_roundtrip

/-- C4 counterexample: a line of five `#` followed by a space and text
does *not* become a level-3 heading — the `#{1,3}` regex fails to match
and the line falls through to a paragraph block. -/
theorem C4_counterexample :
    markdown_to_blocks (ofStr "##### text")
      = [create_paragraph_block (ofStr "##### text")]
    ∧ markdown_to_blocks (ofStr "##### text")
      ≠ [create_heading_block (ofStr "text") 3] := by
  have hsplit : splitLines (ofStr "##### text") = [ofStr "##### text"] := by
    decide
  have hstrip : pyStrip (ofStr "##### text") = ofStr "##### text" := by decide
  have h1 : markdown_to_blocks (ofStr "##### text")
      = [create_paragraph_block (ofStr "##### text")] := by
    show markdown_to_blocks_loop (splitLines (ofStr "##### text")) = _
    rw [hsplit, loop_paragraph _ [] (by decide) (by decide) (by decide)
      (by decide) (by decide) (by decide) (by decide), loop_nil, hstrip]
  refine ⟨h1, ?_⟩
  rw [h1]
  intro hcontra
  have hhead : create_paragraph_block (ofStr "##### text")
      = create_heading_block (ofStr "text") 3 := by
    injection hcontra
  have htype := congrArg block_type_str hhead
  have : block_type_str (create_paragraph_block (ofStr "##### text"))
      = ofStr "paragraph" := rfl
  have h3 : block_type_str (create_heading_block (ofStr "text") 3)
      = ofStr "heading_3" := rfl
  rw [this, h3] at htype
  exact absurd htype (by decide)

/-- C4 (amended): a line of one to three `#` followed by a space and text
yields a heading of exactly that level, which lies in `[1,3]`; a line of
four or more `#` does not match the heading pattern and becomes a
paragraph block instead; the heading constructor itself clamps levels
above 3 to 3, but the parser never invokes it with such a level. -/
theorem C4_heading_level_amended :
    (∀ (n : Nat) (t : Str) (rest : List Str), 1 ≤ n → n ≤ 3 → t ≠ [] →
      pyStrip t = t →
      markdown_to_blocks_loop ((List.replicate n '#' ++ ' ' :: t) :: rest)
        = create_heading_block t n :: markdown_to_blocks_loop rest)
    ∧ (∀ (n : Nat) (t : Str) (rest : List Str), 4 ≤ n → t ≠ [] →
      pyStrip t = t →
      markdown_to_blocks_loop ((List.replicate n '#' ++ ' ' :: t) :: rest)
        = create_paragraph_block (List.replicate n '#' ++ ' ' :: t) ::
          markdown_to_blocks_loop rest)
    ∧ (∀ (t : Str) (level : Nat), 3 < level →
      create_heading_block t level = create_heading_block t 3) := by
  refine ⟨fun n t rest h1 h3 htne hts =>
      loop_heading_line n t h1 h3 htne hts rest,
    fun n t rest h4 htne hts =>
      loop_hashes_paragraph n t h4 htne hts rest,
    fun t level hlv => ?_⟩
  simp [create_heading_block, if_pos hlv]

theorem C4_witness :
    (1 ≤ 2 ∧ 2 ≤ 3 ∧ (ofStr "Hi") ≠ [] ∧ pyStrip (ofStr "Hi") = ofStr "Hi")
    ∧ markdown_to_blocks_loop [List.replicate 2 '#' ++ ' ' :: ofStr "Hi"]
        = [create_heading_block (ofStr "Hi") 2]
    ∧ create_heading_block (ofStr "x") 5 = create_heading_block (ofStr "x") 3 := by
  refine ⟨⟨by decide, by decide, by decide, by decide⟩, ?_, ?_⟩
  · rw [C4_heading_level_amended.1 2 (ofStr "Hi") [] (by decide) (by decide)
      (by decide) (by decide), loop_nil]
  · exact C4_heading_level_amended.2.2 (ofStr "x") 5 (by decide)

/-- C5 counterexample: the fence-consuming loop stops at any line whose
trimmed form *begins with* ` ``` `, not only at a line that is exactly
` ``` `.  On `"```\n```x\ny"` the line ` ```x ` closes the (empty) code
block and `y` becomes a separate paragraph, instead of both lines being
consumed as code text as the claim would require. -/
theorem C5_counterexample :
    markdown_to_blocks (ofStr "```\n```x\ny")
      = [create_code_block [] [], create_paragraph_block (ofStr "y")]
    ∧ markdown_to_blocks (ofStr "```\n```x\ny")
      ≠ [create_code_block (ofStr "```x\ny") []] := by
  have hsplit : splitLines (ofStr "```\n```x\ny")
      = [ofStr "```", ofStr "```x", ofStr "y"] := by decide
  have h1 : markdown_to_blocks (ofStr "```\n```x\ny")
      = [create_code_block [] [], create_paragraph_block (ofStr "y")] := by
    show markdown_to_blocks_loop (splitLines (ofStr "```\n```x\ny")) = _
    rw [hsplit]
    have hshape : ([ofStr "```", ofStr "```x", ofStr "y"] : List Str)
        = ofStr "```" :: ([] ++ ofStr "```x" :: [ofStr "y"]) := rfl
    rw [hshape, loop_fence_closed (ofStr "```") [] (ofStr "```x") [ofStr "y"]
      (by decide) (fun l hl => absurd hl (List.not_mem_nil l)) (by decide)]
    rw [show pyStrip ((pyStrip (ofStr "```")).drop 3) = ([] : Str) from by decide]
    rw [show joinLines ([] : List Str) = [] from rfl]
    rw [loop_paragraph _ [] (by decide) (by decide) (by decide) (by decide)
      (by decide) (by decide) (by decide), loop_nil]
    rw [show pyStrip (ofStr "y") = ofStr "y" from by decide]
  refine ⟨h1, ?_⟩
  rw [h1]
  intro hcontra
  have := congrArg List.length hcontra
  simp at this

/-- C5 (amended): a line beginning (after stripping) with ` ``` ` opens a
code block whose language is the stripped trailing text of that line;
subsequent lines are taken verbatim as code until a line whose trimmed
form *begins with* ` ``` `, which is consumed and excluded from the code
text; if no such line exists before end of input, all remaining lines
become the code content and no error is raised. -/
theorem C5_code_fence_amended :
    (∀ (o : Str) (body : List Str) (close : Str) (rest : List Str),
      (ofStr "```").isPrefixOf (pyStrip o) = true →
      (∀ l ∈ body, fence_test l = false) →
      fence_test close = true →
      markdown_to_blocks_loop (o :: (body ++ close :: rest))
        = create_code_block (joinLines body) (pyStrip ((pyStrip o).drop 3))
          :: markdown_to_blocks_loop rest)
    ∧ (∀ (o : Str) (body : List Str),
      (ofStr "```").isPrefixOf (pyStrip o) = true →
      (∀ l ∈ body, fence_test l = false) →
      markdown_to_blocks_loop (o :: body)
        = [create_code_block (joinLines body) (pyStrip ((pyStrip o).drop 3))]) :=
  ⟨loop_fence_closed, loop_fence_unclosed⟩

theorem C5_witness :
    ((ofStr "```").isPrefixOf (pyStrip (ofStr "```python")) = true
      ∧ fence_test (ofStr "```") = true)
    ∧ markdown_to_blocks_loop
        [ofStr "```python", ofStr "def hello_world():", ofStr "```"]
      = [create_code_block (ofStr "def hello_world():") (ofStr "python")] := by
  refine ⟨⟨by decide, by decide⟩, ?_⟩
  have hshape : ([ofStr "```python", ofStr "def hello_world():", ofStr "```"] : List Str)
      = ofStr "```python" :: ([ofStr "def hello_world():"] ++ ofStr "```" :: []) := rfl
  rw [hshape, C5_code_fence_amended.1 (ofStr "```python")
    [ofStr "def hello_world():"] (ofStr "```") [] (by decide)
    (by intro l hl; rw [List.mem_singleton] at hl; rw [hl]; decide)
    (by decide), loop_nil]
  rw [show pyStrip ((pyStrip (ofStr "```python")).drop 3) = ofStr "python" from by decide]
  rw [show joinLines [ofStr "def hello_world():"] = ofStr "def hello_world():" from rfl]

/-- C9: for bodies assembled from the supported line shapes, `toBlocks`
is total (the Lean embedding is a total function and the loop has no
failure branch), produces exactly one block per non-blank line with each
fenced region collapsing to one block, and any non-blank line matching
none of the five specific shapes degrades to a paragraph block rather
than failing. -/
theorem C9_toBlocks_total_block_count :
    (∀ segs : List Seg, (∀ g ∈ segs, segWF g) →
      (markdown_to_blocks (joinLines (segs.flatMap segLines))).length
        = (segs.filter segIsBlock).length)
    ∧ (∀ (l : Str) (rest : List Str),
      pyStrip l ≠ [] →
      heading_match (pyStrip l) = none →
      (ofStr "```").isPrefixOf (pyStrip l) = false →
      (ofStr "- ").isPrefixOf (pyStrip l) = false →
      (ofStr "* ").isPrefixOf (pyStrip l) = false →
      numbered_match (pyStrip l) = none →
      (ofStr "> ").isPrefixOf (pyStrip l) = false →
      markdown_to_blocks_loop (l :: rest)
        = create_paragraph_block (pyStrip l) :: markdown_to_blocks_loop rest) :=
  ⟨markdown_to_blocks_count, loop_paragraph⟩

theorem C9_witness :
    (∀ g ∈ ([Seg.simple (ofStr "# hi"), Seg.blank (ofStr "  "),
        Seg.fence (ofStr "```py") [ofStr "x", ofStr ""] (ofStr "```"),
        Seg.simple (ofStr "- item")] : List Seg), segWF g)
    ∧ (markdown_to_blocks (joinLines
        (([Seg.simple (ofStr "# hi"), Seg.blank (ofStr "  "),
          Seg.fence (ofStr "```py") [ofStr "x", ofStr ""] (ofStr "```"),
          Seg.simple (ofStr "- item")] : List Seg).flatMap segLines))).length
      = (([Seg.simple (ofStr "# hi"), Seg.blank (ofStr "  "),
          Seg.fence (ofStr "```py") [ofStr "x", ofStr ""] (ofStr "```"),
          Seg.simple (ofStr "- item")] : List Seg).filter segIsBlock).length := by
  have hwf : ∀ g ∈ ([Seg.simple (ofStr "# hi"), Seg.blank (ofStr "  "),
      Seg.fence (ofStr "```py") [ofStr "x", ofStr ""] (ofStr "```"),
      Seg.simple (ofStr "- item")] : List Seg), segWF g := by
    intro g hg
    simp only [List.mem_cons, List.not_mem_nil, or_false] at hg
    rcases hg with rfl | rfl | rfl | rfl
    · exact ⟨by decide, by decide, by decide⟩
    · exact ⟨by decide, by decide⟩
    · refine ⟨by decide, by decide, ?_, by decide, by decide⟩
      intro x hx
      rcases List.mem_cons.mp hx with rfl | hx2
      · exact ⟨by decide, by decide⟩
      · rw [List.mem_singleton] at hx2
        rw [hx2]
        exact ⟨by decide, by decide⟩
    · exact ⟨by decide, by decide, by decide⟩
  exact ⟨hwf, C9_toBlocks_total_block_count.1 _ hwf⟩

/-- C10: every block returned by `toBlocks` is a well-formed remote block
object: its `type` names the single payload key, the payload's
`rich_text` is the canonical one-element text array carrying the parsed
text, and code blocks additionally carry a `language` field. -/
theorem C10_block_shape_invariant :
    ∀ (s : Str) (b : JVal), b ∈ markdown_to_blocks s → block_shape_ok b :=
  fun s b hb => block_shape_ok_of_WF b (WF_markdown_to_blocks s b hb)

theorem C10_witness :
    block_shape_ok (create_paragraph_block (ofStr "hello")) := by
  have heval : markdown_to_blocks (ofStr "hello")
      = [create_paragraph_block (ofStr "hello")] := by
    show markdown_to_blocks_loop (splitLines (ofStr "hello")) = _
    rw [show splitLines (ofStr "hello") = [ofStr "hello"] from by decide,
      loop_paragraph _ [] (by decide) (by decide) (by decide) (by decide)
      (by decide) (by decide) (by decide), loop_nil,
      show pyStrip (ofStr "hello") = ofStr "hello" from by decide]
  exact C10_block_shape_invariant (ofStr "hello")
    (create_paragraph_block (ofStr "hello"))
    (by rw [heval]; exact List.mem_singleton.mpr rfl)

/-- C1: the conflict check returns true exactly when both the remote
last-modified time and the local mtime are strictly newer than the
header's `last_synced`; an absent (or empty) `last_synced` means "never
synced" and yields false; and every failing lookup or comparison step
yields true — a raised header parse, an unparseable or truthy non-string
`last_synced`, a failing page fetch, a non-object page, a missing or
non-string `last_edited_time`, an unparseable remote timestamp, a failing
mtime lookup, a naive/aware mismatch in the first comparison, and an
aware `last_synced` (the naive mtime comparison raises).  Under
succeeding lookups the comparisons succeed exactly when all timestamps
are naive (`datetime.fromtimestamp` is always naive), and the result is
then the claimed conjunction of strict inequalities.  Conjunct 8 checks
the spec's concrete scenario: with `last_synced = T0`, remote `T0+1` and
local `T0-1` the answer is false, and with local `T0+2` it is true. -/
theorem C1_detect_conflicts_spec :
    (∀ env : ConflictEnv, env.parse_file = .ok none →
      detect_conflicts env = false)
    ∧ (∀ (env : ConflictEnv) (v : JVal), env.parse_file = .ok (some v) →
      jTruthy v = false → detect_conflicts env = false)
    ∧ (∀ (env : ConflictEnv) (e : Str), env.parse_file = .error e →
      detect_conflicts env = true)
    ∧ (∀ (env : ConflictEnv) (s : Str), env.parse_file = .ok (some (.str s)) →
      s ≠ [] → env.fromisoformat s = none → detect_conflicts env = true)
    ∧ (∀ (env : ConflictEnv) (s : Str) (t0 : PyTime) (e : Str),
      env.parse_file = .ok (some (.str s)) → s ≠ [] →
      env.fromisoformat s = some t0 → env.get_page = .error e →
      detect_conflicts env = true)
    ∧ (∀ (env : ConflictEnv) (s : Str) (t0 tr : PyTime)
        (fs : List (Str × JVal)) (r : Str) (m : Int),
      env.parse_file = .ok (some (.str s)) → s ≠ [] →
      env.fromisoformat s = some t0 →
      env.get_page = .ok (.obj fs) →
      jlookup fs (ofStr "last_edited_time") = some (.str r) →
      env.fromisoformat (zReplace r) = some tr →
      env.getmtime = .ok m →
      tr.aware = t0.aware → t0.aware = false →
      detect_conflicts env = (decide (t0.t < tr.t) && decide (t0.t < m)))
    ∧ (∀ (env : ConflictEnv) (s : Str) (t0 tr : PyTime)
        (fs : List (Str × JVal)) (r : Str) (m : Int),
      env.parse_file = .ok (some (.str s)) → s ≠ [] →
      env.fromisoformat s = some t0 →
      env.get_page = .ok (.obj fs) →
      jlookup fs (ofStr "last_edited_time") = some (.str r) →
      env.fromisoformat (zReplace r) = some tr →
      env.getmtime = .ok m →
      ¬ tr.aware = t0.aware →
      detect_conflicts env = true)
    ∧ (∀ t0 : Int,
      detect_conflicts
        { parse_file := .ok (some (.str (ofStr "LS")))
          fromisoformat := fun s =>
            if s = ofStr "LS" then some ⟨t0, false⟩
            else if s = ofStr "RM" then some ⟨t0 + 1, false⟩ else none
          get_page := .ok (.obj [(ofStr "last_edited_time", .str (ofStr "RM"))])
          getmtime := .ok (t0 - 1) } = false
      ∧ detect_conflicts
        { parse_file := .ok (some (.str (ofStr "LS")))
          fromisoformat := fun s =>
            if s = ofStr "LS" then some ⟨t0, false⟩
            else if s = ofStr "RM" then some ⟨t0 + 1, false⟩ else none
          get_page := .ok (.obj [(ofStr "last_edited_time", .str (ofStr "RM"))])
          getmtime := .ok (t0 + 2) } = true)
    ∧ (∀ (env : ConflictEnv) (v : JVal), env.parse_file = .ok (some v) →
      jTruthy v = true → (∀ s, v ≠ JVal.str s) →
      detect_conflicts env = true)
    ∧ (∀ (env : ConflictEnv) (s : Str) (t0 : PyTime) (p : JVal),
      env.parse_file = .ok (some (.str s)) → s ≠ [] →
      env.fromisoformat s = some t0 →
      env.get_page = .ok p → (∀ fs, p ≠ JVal.obj fs) →
      detect_conflicts env = true)
    ∧ (∀ (env : ConflictEnv) (s : Str) (t0 : PyTime)
        (fs : List (Str × JVal)),
      env.parse_file = .ok (some (.str s)) → s ≠ [] →
      env.fromisoformat s = some t0 →
      env.get_page = .ok (.obj fs) →
      jlookup fs (ofStr "last_edited_time") = none →
      detect_conflicts env = true)
    ∧ (∀ (env : ConflictEnv) (s : Str) (t0 : PyTime)
        (fs : List (Str × JVal)) (w : JVal),
      env.parse_file = .ok (some (.str s)) → s ≠ [] →
      env.fromisoformat s = some t0 →
      env.get_page = .ok (.obj fs) →
      jlookup fs (ofStr "last_edited_time") = some w →
      (∀ r, w ≠ JVal.str r) →
      detect_conflicts env = true)
    ∧ (∀ (env : ConflictEnv) (s : Str) (t0 : PyTime)
        (fs : List (Str × JVal)) (r : Str),
      env.parse_file = .ok (some (.str s)) → s ≠ [] →
      env.fromisoformat s = some t0 →
      env.get_page = .ok (.obj fs) →
      jlookup fs (ofStr "last_edited_time") = some (.str r) →
      env.fromisoformat (zReplace r) = none →
      detect_conflicts env = true)
    ∧ (∀ (env : ConflictEnv) (s : Str) (t0 tr : PyTime)
        (fs : List (Str × JVal)) (r : Str) (e : Str),
      env.parse_file = .ok (some (.str s)) → s ≠ [] →
      env.fromisoformat s = some t0 →
      env.get_page = .ok (.obj fs) →
      jlookup fs (ofStr "last_edited_time") = some (.str r) →
      env.fromisoformat (zReplace r) = some tr →
      env.getmtime = .error e →
      detect_conflicts env = true)
    ∧ (∀ (env : ConflictEnv) (s : Str) (t0 tr : PyTime)
        (fs : List (Str × JVal)) (r : Str) (m : Int),
      env.parse_file = .ok (some (.str s)) → s ≠ [] →
      env.fromisoformat s = some t0 →
      env.get_page = .ok (.obj fs) →
      jlookup fs (ofStr "last_edited_time") = some (.str r) →
      env.fromisoformat (zReplace r) = some tr →
      env.getmtime = .ok m →
      tr.aware = t0.aware → t0.aware = true →
      detect_conflicts env = true) := by
  refine ⟨?_, ?_, ?_, ?_, ?_, ?_, ?_, ?_, ?_, ?_, ?_, ?_, ?_, ?_, ?_⟩
  · intro env h
    simp [detect_conflicts, detect_conflicts_checked, h]
  · intro env v h hv
    simp [detect_conflicts, detect_conflicts_checked, h, hv]
  · intro env e h
    simp [detect_conflicts, detect_conflicts_checked, h]
  · intro env s h hs hiso
    have hv : jTruthy (JVal.str s) = true := by
      simp [jTruthy, hs]
    simp [detect_conflicts, detect_conflicts_checked, h, hv, hiso,
      exceptOfOption]
  · intro env s t0 e h hs hiso hp
    have hv : jTruthy (JVal.str s) = true := by
      simp [jTruthy, hs]
    simp [detect_conflicts, detect_conflicts_checked, h, hv, hiso, hp,
      exceptOfOption]
  · intro env s t0 tr fs r m h hs hiso hp hle hisor hm haw haw0
    have hv : jTruthy (JVal.str s) = true := by
      simp [jTruthy, hs]
    have hawf : (⟨m, false⟩ : PyTime).aware = t0.aware := by
      simp [haw0]
    simp [detect_conflicts, detect_conflicts_checked, h, hv, hiso, hp, hle,
      hisor, hm, exceptOfOption, pyGtD, haw, hawf, haw0]
  · intro env s t0 tr fs r m h hs hiso hp hle hisor hm haw
    have hv : jTruthy (JVal.str s) = true := by
      simp [jTruthy, hs]
    simp [detect_conflicts, detect_conflicts_checked, h, hv, hiso, hp, hle,
      hisor, hm, exceptOfOption, pyGtD, haw]
  · intro t0
    constructor
    · simp [detect_conflicts, detect_conflicts_checked, jTruthy, jlookup,
        exceptOfOption, pyGtD, zReplace, ofStr]
    · simp [detect_conflicts, detect_conflicts_checked, jTruthy, jlookup,
        exceptOfOption, pyGtD, zReplace, ofStr]
  · intro env v h hv hns
    cases v with
    | str s => exact absurd rfl (hns s)
    | arr xs => simp [detect_conflicts, detect_conflicts_checked, h, hv]
    | obj fs => simp [detect_conflicts, detect_conflicts_checked, h, hv]
  · intro env s t0 p h hs hiso hp hno
    have hv : jTruthy (JVal.str s) = true := by
      simp [jTruthy, hs]
    cases p with
    | obj fs => exact absurd rfl (hno fs)
    | str x =>
      simp [detect_conflicts, detect_conflicts_checked, h, hv, hiso, hp,
        exceptOfOption]
    | arr xs =>
      simp [detect_conflicts, detect_conflicts_checked, h, hv, hiso, hp,
        exceptOfOption]
  · intro env s t0 fs h hs hiso hp hle
    have hv : jTruthy (JVal.str s) = true := by
      simp [jTruthy, hs]
    simp [detect_conflicts, detect_conflicts_checked, h, hv, hiso, hp, hle,
      exceptOfOption]
  · intro env s t0 fs w h hs hiso hp hle hns
    have hv : jTruthy (JVal.str s) = true := by
      simp [jTruthy, hs]
    cases w with
    | str r => exact absurd rfl (hns r)
    | arr xs =>
      simp [detect_conflicts, detect_conflicts_checked, h, hv, hiso, hp, hle,
        exceptOfOption]
    | obj gs =>
      simp [detect_conflicts, detect_conflicts_checked, h, hv, hiso, hp, hle,
        exceptOfOption]
  · intro env s t0 fs r h hs hiso hp hle hisor
    have hv : jTruthy (JVal.str s) = true := by
      simp [jTruthy, hs]
    simp [detect_conflicts, detect_conflicts_checked, h, hv, hiso, hp, hle,
      hisor, exceptOfOption]
  · intro env s t0 tr fs r e h hs hiso hp hle hisor hm
    have hv : jTruthy (JVal.str s) = true := by
      simp [jTruthy, hs]
    simp [detect_conflicts, detect_conflicts_checked, h, hv, hiso, hp, hle,
      hisor, hm, exceptOfOption]
  · intro env s t0 tr fs r m h hs hiso hp hle hisor hm haw haw1
    have hv : jTruthy (JVal.str s) = true := by
      simp [jTruthy, hs]
    have hawfile : ¬ (⟨m, false⟩ : PyTime).aware = t0.aware := by
      simp [haw1]
    simp [detect_conflicts, detect_conflicts_checked, h, hv, hiso, hp, hle,
      hisor, hm, exceptOfOption, pyGtD, haw, hawfile]

theorem C1_witness :
    detect_conflicts
      { parse_file := Except.ok none
        fromisoformat := fun _ => none
        get_page := Except.ok (.obj [])
        getmtime := Except.ok 0 } = false :=
  C1_detect_conflicts_spec.1 _ rfl

/-- C6: on push, the UPDATE path is taken exactly when the header holds a
truthy `notion_page_id` whose gateway `get_page` succeeds; with no stored
id, or with a stored id that no longer resolves, the CREATE path is taken
and — when the remaining steps succeed — the push still succeeds rather
than failing. -/
theorem C6_push_update_vs_create :
    (∀ (env : PushEnv) (m : List (Str × JVal)) (raw pid : Str),
      env.token_configured = true →
      env.parse_file = .ok (m, raw) →
      jlookup m (ofStr "notion_page_id") = some (.str pid) →
      pid ≠ [] →
      env.get_page_ok pid = true →
      env.update_page_blocks pid (markdown_to_blocks raw) = .ok () →
      env.update_frontmatter_result = .ok () →
      sync_file_to_notion env
        = (true, ofStr "Updated Notion page: "
            ++ resolve_title m raw env.file_path))
    ∧ (∀ (env : PushEnv) (m : List (Str × JVal)) (raw parent new_id : Str),
      env.token_configured = true →
      env.parse_file = .ok (m, raw) →
      jlookup m (ofStr "notion_page_id") = none →
      env.parent_page_id = some parent →
      parent ≠ [] →
      env.create_page (format_parent_id parent)
        (resolve_title m raw env.file_path)
        (build_properties m (resolve_title m raw env.file_path)
          (env.db_retrieve_ok (format_parent_id parent))) = .ok new_id →
      env.update_page_blocks new_id (markdown_to_blocks raw) = .ok () →
      env.update_frontmatter_result = .ok () →
      sync_file_to_notion env
        = (true, ofStr "Created new Notion page: "
            ++ resolve_title m raw env.file_path))
    ∧ (∀ (env : PushEnv) (m : List (Str × JVal)) (raw pid parent new_id : Str),
      env.token_configured = true →
      env.parse_file = .ok (m, raw) →
      jlookup m (ofStr "notion_page_id") = some (.str pid) →
      env.get_page_ok pid = false →
      env.parent_page_id = some parent →
      parent ≠ [] →
      env.create_page (format_parent_id parent)
        (resolve_title m raw env.file_path)
        (build_properties m (resolve_title m raw env.file_path)
          (env.db_retrieve_ok (format_parent_id parent))) = .ok new_id →
      env.update_page_blocks new_id (markdown_to_blocks raw) = .ok () →
      env.update_frontmatter_result = .ok () →
      sync_file_to_notion env
        = (true, ofStr "Created new Notion page: "
            ++ resolve_title m raw env.file_path)) := by
  refine ⟨?_, ?_, ?_⟩
  · intro env m raw pid htok hparse hpid hpidne hget hupd hfm
    simp [sync_file_to_notion, sync_file_to_notion_body, htok, hparse, hpid,
      hpidne, hget, hupd, hfm]
  · intro env m raw parent new_id htok hparse hpid hparent hparentne hcreate
      hupd hfm
    simp [sync_file_to_notion, sync_file_to_notion_body, htok, hparse, hpid,
      hparent, hparentne, hcreate, hupd, hfm]
  · intro env m raw pid parent new_id htok hparse hpid hget hparent
      hparentne hcreate hupd hfm
    simp [sync_file_to_notion, sync_file_to_notion_body, htok, hparse, hpid,
      hget, hparent, hparentne, hcreate, hupd, hfm]

theorem C6_witness :
    sync_file_to_notion
      { file_path := ofStr "doc.md"
        token_configured := true
        parse_file := Except.ok
          ([(ofStr "notion_page_id", JVal.str (ofStr "deadbeef")),
            (ofStr "title", JVal.str (ofStr "T"))], ofStr "hello")
        get_page_ok := fun _ => false
        parent_page_id := some (ofStr "p1")
        db_retrieve_ok := fun _ => false
        create_page := fun _ _ _ => Except.ok (ofStr "newid")
        update_page_blocks := fun _ _ => Except.ok ()
        update_frontmatter_result := Except.ok () }
    = (true, ofStr "Created new Notion page: "
        ++ resolve_title
          [(ofStr "notion_page_id", JVal.str (ofStr "deadbeef")),
           (ofStr "title", JVal.str (ofStr "T"))]
          (ofStr "hello") (ofStr "doc.md")) := by
  exact C6_push_update_vs_create.2.2 _
    [(ofStr "notion_page_id", JVal.str (ofStr "deadbeef")),
     (ofStr "title", JVal.str (ofStr "T"))]
    (ofStr "hello") (ofStr "deadbeef") (ofStr "p1") (ofStr "newid")
    rfl rfl rfl rfl rfl (by decide) rfl rfl rfl

/-- C7: both orchestrator entry points catch every internal failure and
return a `(success, message)` pair: a raised body failure surfaces as
`(False, prefixed message)`, a body result is returned as is, the missing
token is reported as a pair, and representative internal failures
(parsing on push, the gateway fetch on pull) indeed surface as body
errors rather than escaping. -/
theorem C7_no_exception_escapes :
    (∀ (env : PushEnv) (e : Str), env.token_configured = true →
      sync_file_to_notion_body env = .error e →
      sync_file_to_notion env
        = (false, ofStr "Error syncing file to Notion: " ++ e))
    ∧ (∀ (env : PushEnv) (r : Bool × Str), env.token_configured = true →
      sync_file_to_notion_body env = .ok r → sync_file_to_notion env = r)
    ∧ (∀ env : PushEnv, env.token_configured = false →
      sync_file_to_notion env = (false, ofStr "Notion API token not configured"))
    ∧ (∀ (env : PullEnv) (e : Str), env.token_configured = true →
      sync_notion_to_file_body env = .error e →
      sync_notion_to_file env
        = (false, ofStr "Error syncing Notion page to file: " ++ e))
    ∧ (∀ (env : PullEnv) (r : Bool × Str), env.token_configured = true →
      sync_notion_to_file_body env = .ok r → sync_notion_to_file env = r)
    ∧ (∀ env : PullEnv, env.token_configured = false →
      sync_notion_to_file env = (false, ofStr "Notion API token not configured"))
    ∧ (∀ (env : PushEnv) (e : Str), env.parse_file = .error e →
      sync_file_to_notion_body env = .error e)
    ∧ (∀ (env : PullEnv) (e : Str), env.get_page = .error e →
      sync_notion_to_file_body env = .error e) := by
  refine ⟨?_, ?_, ?_, ?_, ?_, ?_, ?_, ?_⟩
  · intro env e htok hbody
    simp [sync_file_to_notion, htok, hbody]
  · intro env r htok hbody
    simp [sync_file_to_notion, htok, hbody]
  · intro env htok
    simp [sync_file_to_notion, htok]
  · intro env e htok hbody
    simp [sync_notion_to_file, htok, hbody]
  · intro env r htok hbody
    simp [sync_notion_to_file, htok, hbody]
  · intro env htok
    simp [sync_notion_to_file, htok]
  · intro env e hparse
    simp [sync_file_to_notion_body, hparse]
  · intro env e hget
    simp [sync_notion_to_file_body, hget]

theorem C7_witness :
    sync_file_to_notion
      { file_path := ofStr "doc.md"
        token_configured := false
        parse_file := Except.error (ofStr "boom")
        get_page_ok := fun _ => false
        parent_page_id := none
        db_retrieve_ok := fun _ => false
        create_page := fun _ _ _ => Except.error (ofStr "x")
        update_page_blocks := fun _ _ => Except.ok ()
        update_frontmatter_result := Except.ok () }
    = (false, ofStr "Notion API token not configured") :=
  C7_no_exception_escapes.2.2.1 _ rfl

/-- C8: the header write merges the updates into the existing header —
keys named in the updates are set to their new values, every other key is
preserved unchanged, and the body is untouched; the final conjunct checks
the spec's concrete document (title/notion_page_id/tags preserved,
last_synced/status added). -/
theorem C8_update_frontmatter_merge :
    (∀ (h u : List (Str × JVal)) (body : Str) (k : Str),
      (∀ kv ∈ u, kv.1 ≠ k) →
      jlookup (update_frontmatter (h, body) u).1 k = jlookup h k)
    ∧ (∀ (h u : List (Str × JVal)) (body : Str) (k : Str) (v : JVal),
      (k, v) ∈ u → (u.map Prod.fst).Nodup →
      jlookup (update_frontmatter (h, body) u).1 k = some v)
    ∧ (∀ (h u : List (Str × JVal)) (body : Str),
      (update_frontmatter (h, body) u).2 = body)
    ∧ (update_frontmatter
        ([(ofStr "title", JVal.str (ofStr "Test Document")),
          (ofStr "notion_page_id", JVal.str (ofStr "abc123")),
          (ofStr "tags", JVal.arr [JVal.str (ofStr "test"),
            JVal.str (ofStr "integration")])], ofStr "body text")
        [(ofStr "last_synced", JVal.str (ofStr "2025-06-01T00:00:00")),
         (ofStr "status", JVal.str (ofStr "synced"))]
      = ([(ofStr "title", JVal.str (ofStr "Test Document")),
          (ofStr "notion_page_id", JVal.str (ofStr "abc123")),
          (ofStr "tags", JVal.arr [JVal.str (ofStr "test"),
            JVal.str (ofStr "integration")]),
          (ofStr "last_synced", JVal.str (ofStr "2025-06-01T00:00:00")),
          (ofStr "status", JVal.str (ofStr "synced"))], ofStr "body text")) := by
  refine ⟨?_, ?_, ?_, rfl⟩
  · intro h u body k hk
    exact jlookup_apply_updates_not_mem h u k hk
  · intro h u body k v hmem hnodup
    exact jlookup_apply_updates_mem h u k v hmem hnodup
  · intro h u body
    rfl

theorem C8_witness :
    jlookup (update_frontmatter
      ([(ofStr "title", JVal.str (ofStr "Test Document"))], ofStr "b")
      [(ofStr "last_synced", JVal.str (ofStr "now"))]).1 (ofStr "title")
    = some (JVal.str (ofStr "Test Document")) := by
  exact C8_update_frontmatter_merge.1
    [(ofStr "title", JVal.str (ofStr "Test Document"))]
    [(ofStr "last_synced", JVal.str (ofStr "now"))]
    (ofStr "b") (ofStr "title")
    (by
      intro kv hkv
      rw [List.mem_singleton] at hkv
      rw [hkv]
      decide)

/-- C3: on pull with no target path, the file name is derived from the
title by keeping only alphanumerics, spaces, hyphens and underscores,
replacing spaces with hyphens and lowercasing; an empty result falls back
to `untitled-` plus the first eight characters of the remote id; and a
colliding path gets suffixes `-1`, `-2`, … until it is unique (first
free suffix).  Conjuncts 5-7 check a concrete sanitization, fallback and
collision chain. -/
theorem C3_pull_filename_derivation :
    (∀ title page_id : Str, sanitize_title title ≠ [] →
      derive_filename title page_id = sanitize_title title)
    ∧ (∀ title page_id : Str, sanitize_title title = [] →
      derive_filename title page_id = ofStr "untitled-" ++ page_id.take 8)
    ∧ (∀ (existing : List Str) (orig : Str),
      unique_path existing orig ∉ existing)
    ∧ (∀ (existing : List Str) (orig : Str), orig ∉ existing →
      unique_path existing orig = orig)
    ∧ (∀ (existing : List Str) (orig : Str), orig ∈ existing →
      ∃ k, 1 ≤ k ∧
        unique_path existing orig
          = dup_candidate (splitext orig).1 (splitext orig).2 k ∧
        dup_candidate (splitext orig).1 (splitext orig).2 k ∉ existing ∧
        (∀ j, 1 ≤ j → j < k →
          dup_candidate (splitext orig).1 (splitext orig).2 j ∈ existing))
    ∧ sanitize_title (ofStr "My: Test/Page!") = ofStr "my-testpage"
    ∧ derive_filename (ofStr "!!!") (ofStr "abcdef1234567890")
        = ofStr "untitled-abcdef12"
    ∧ unique_path [ofStr "docs/a.md", ofStr "docs/a-1.md"] (ofStr "docs/a.md")
        = ofStr "docs/a-2.md" := by
  refine ⟨?_, ?_, unique_path_not_mem, unique_path_id, unique_path_first_free,
    by decide, by decide, by decide⟩
  · intro title page_id hne
    simp [derive_filename, hne]
  · intro title page_id he
    simp [derive_filename, he]

theorem C3_witness :
    derive_filename (ofStr "My Page") (ofStr "id12345678")
      = sanitize_title (ofStr "My Page")
    ∧ unique_path [] (ofStr "docs/x.md") = ofStr "docs/x.md" :=
  ⟨C3_pull_filename_derivation.1 (ofStr "My Page") (ofStr "id12345678")
      (by decide),
   C3_pull_filename_derivation.2.2.2.1 [] (ofStr "docs/x.md")
      (List.not_mem_nil _)⟩
